import Mathlib

/-!
# Verification of the Lchat conversation/branch data model and dispatch

A shallow embedding of the Convex backend of the Lchat repository:

* `convex/conversations.ts` — conversations, messages, branches
  (`addMessage`, `createBranch`, `deleteConversation`, `duplicateConversation`);
* `convex/settings.ts` — API-key credential store
  (`getApiKey`, `saveApiKey`, `deleteApiKey`);
* `convex/ai.ts` — provider registry, the `sendMessage` action and `testApiKey`.

The Convex document store is modelled as explicit lists of records with a
fresh-id counter (`DB.nextId`); `ctx.db.insert` appends a record carrying the
fresh id, `ctx.db.patch`/`ctx.db.delete` map/filter by id.  The
`by_conversation` index is declared on `["conversationId", "messageIndex"]`,
so reading a conversation's messages through it yields them sorted by
`messageIndex`; this is modelled by an explicit insertion sort.  Handlers
that throw become `Except`-valued functions.  `getAuthUserId` is elided: each
operation takes the authenticated user's id directly (none of the verified
properties concerns the unauthenticated path).  Outbound HTTP is modelled by
a function from the message history sent upstream to the upstream's outcome.
-/

/-- A row of the `messages` table (schema.ts). -/
structure Message where
  id : Nat
  conversationId : Nat
  content : String
  role : String
  provider : Option String
  model : Option String
  messageIndex : Nat
deriving DecidableEq, Repr

/-- A row of the `conversations` table (schema.ts). -/
structure Conversation where
  id : Nat
  userId : Nat
  title : String
  parentBranchId : Option Nat
  branchFromMessageId : Option Nat
deriving DecidableEq, Repr

/-- A row of the `branches` table (schema.ts). -/
structure Branch where
  id : Nat
  userId : Nat
  parentConversationId : Nat
  branchConversationId : Nat
  branchFromMessageId : Nat
  name : String
  isActive : Bool
deriving DecidableEq, Repr

/-- A row of the `apiKeys` table (schema.ts). -/
structure ApiKey where
  id : Nat
  userId : Nat
  provider : String
  apiKey : String
  isActive : Bool
deriving DecidableEq, Repr

/-- The document store: the four application tables plus a fresh-id source. -/
structure DB where
  conversations : List Conversation
  messages : List Message
  branches : List Branch
  apiKeys : List ApiKey
  nextId : Nat
deriving DecidableEq, Repr

/-- Model of `ctx.db.get` on the conversations table. -/
def findConv (db : DB) (cid : Nat) : Option Conversation :=
  db.conversations.find? (fun c => c.id == cid)

/-- Model of `ctx.db.get` on the messages table. -/
def findMessage (db : DB) (mid : Nat) : Option Message :=
  db.messages.find? (fun m => m.id == mid)

/-- Model of `ctx.db.query("messages").withIndex("by_conversation", q.eq(conversationId)).collect()`,
before taking index order into account. -/
def messagesOf (db : DB) (cid : Nat) : List Message :=
  db.messages.filter (fun m => m.conversationId == cid)

/-- Comparison by `messageIndex`, the sort key of the `by_conversation` index
and of the explicit `.sort((a, b) => a.messageIndex - b.messageIndex)` calls. -/
def byIndex (a b : Message) : Prop := a.messageIndex ≤ b.messageIndex

instance : DecidableRel byIndex := fun _ _ => Nat.decLe _ _

instance : IsTotal Message byIndex := ⟨fun _ _ => Nat.le_total _ _⟩

instance : IsTrans Message byIndex := ⟨fun _ _ _ => Nat.le_trans⟩

/-- Ascending `messageIndex` order. -/
def sortByIndex (l : List Message) : List Message := List.insertionSort byIndex l

/-- A conversation's messages in index order, as the `by_conversation`
index (keyed on `conversationId, messageIndex`) returns them. -/
def messagesSortedOf (db : DB) (cid : Nat) : List Message :=
  sortByIndex (messagesOf db cid)

/-- The errors the backend throws, plus the adapter-level failure shapes. -/
inductive Err where
  | noApiKey (provider : String)
  | conversationNotFound
  | parentConversationNotFound
  | branchMessageNotFound
  | apiKeyNotFound
  | unsupportedProvider (provider : String)
  | apiError (status : Nat) (body : String)
  | googleApiError (status : Nat) (body : String)
  | badResponseBody (desc : String)
  | requestFailed (provider : String) (inner : Err)
deriving DecidableEq, Repr

/-- Model of `ctx.db.insert("messages", ...)`: fresh id, record appended. -/
def insertMessage (db : DB) (cid : Nat) (content role : String)
    (provider model : Option String) (idx : Nat) : Nat × DB :=
  (db.nextId,
    { db with
      messages := db.messages ++
        [{ id := db.nextId, conversationId := cid, content := content, role := role,
           provider := provider, model := model, messageIndex := idx }],
      nextId := db.nextId + 1 })

/-- The message-copy loop shared by `createBranch` (conversations.ts,
lines 170–179) and `duplicateConversation` (lines 285–294): insert a copy of
each listed message, in list order, into conversation `bcid`, preserving
`content, role, provider, model, messageIndex`. -/
def insertCopies (db : DB) (bcid : Nat) (l : List Message) : DB :=
  l.foldl (fun d m =>
    (insertMessage d bcid m.content m.role m.provider m.model m.messageIndex).2) db

/-- Model of `ctx.db.insert("conversations", ...)`. -/
def insertConversation (db : DB) (u : Nat) (title : String)
    (parentBranchId branchFromMessageId : Option Nat) : Nat × DB :=
  (db.nextId,
    { db with
      conversations := db.conversations ++
        [{ id := db.nextId, userId := u, title := title,
           parentBranchId := parentBranchId, branchFromMessageId := branchFromMessageId }],
      nextId := db.nextId + 1 })

/-- Model of `ctx.db.insert("branches", ...)`. -/
def insertBranch (db : DB) (u pcid bcid mid : Nat) (name : String) (isActive : Bool) :
    Nat × DB :=
  (db.nextId,
    { db with
      branches := db.branches ++
        [{ id := db.nextId, userId := u, parentConversationId := pcid,
           branchConversationId := bcid, branchFromMessageId := mid,
           name := name, isActive := isActive }],
      nextId := db.nextId + 1 })

/-- Model of `ctx.db.insert("apiKeys", ...)`. -/
def insertApiKey (db : DB) (u : Nat) (provider apiKey : String) (isActive : Bool) :
    Nat × DB :=
  (db.nextId,
    { db with
      apiKeys := db.apiKeys ++
        [{ id := db.nextId, userId := u, provider := provider, apiKey := apiKey,
           isActive := isActive }],
      nextId := db.nextId + 1 })

/-- The title truncation rule of `addMessage` (conversations.ts, lines 111–114):
`content.length > 50 ? content.substring(0, 50) + "..." : content`. -/
def deriveTitle (content : String) : String :=
  if content.length > 50 then (content.take 50) ++ "..." else content

/-- Model of `ctx.db.patch(conversationId, ...)` setting the title. -/
def patchTitle (db : DB) (cid : Nat) (t : String) : DB :=
  { db with
    conversations :=
      db.conversations.map (fun c => if c.id == cid then { c with title := t } else c) }

/-- Embedding of `addMessage` (conversations.ts, lines 84–128): ownership check, index
assignment as the current message count, the once-only title auto-update,
then the insert. -/
def addMessage (db : DB) (userId cid : Nat) (content role : String)
    (provider model : Option String) : Except Err (Nat × DB) :=
  match findConv db cid with
  | none => .error .conversationNotFound
  | some conv =>
    if conv.userId = userId then
      let messageIndex := (messagesOf db cid).length
      let db1 :=
        if messageIndex == 0 && role == "user" && conv.title == "New Conversation" then
          patchTitle db cid (deriveTitle content)
        else db
      .ok (insertMessage db1 cid content role provider model messageIndex)
    else .error .conversationNotFound

/-- Embedding of `createBranch` (conversations.ts, lines 131–193): checks, new
conversation titled `"{parent.title} - {name}"`, copy of the parent's
messages with `messageIndex ≤` the branch point's index sorted ascending,
then the branch record. -/
def createBranch (db : DB) (userId pcid mid : Nat) (branchName : String) :
    Except Err ((Nat × Nat) × DB) :=
  match findConv db pcid with
  | none => .error .parentConversationNotFound
  | some parent =>
    if parent.userId = userId then
      match findMessage db mid with
      | none => .error .branchMessageNotFound
      | some bm =>
        if bm.conversationId = pcid then
          let r := insertConversation db userId (parent.title ++ " - " ++ branchName)
            none (some mid)
          let bcid := r.1
          let db1 := r.2
          let messagesToCopy :=
            sortByIndex ((messagesOf db1 pcid).filter
              (fun m => m.messageIndex ≤ bm.messageIndex))
          let db2 := insertCopies db1 bcid messagesToCopy
          let r2 := insertBranch db2 userId pcid bcid mid branchName true
          .ok ((r2.1, bcid), r2.2)
        else .error .branchMessageNotFound
    else .error .parentConversationNotFound

/-- Model of `ctx.db.delete(message._id)`. -/
def deleteMessageById (db : DB) (i : Nat) : DB :=
  { db with messages := db.messages.filter (fun m => m.id != i) }

/-- Model of `ctx.db.delete` on a conversations-table id. -/
def deleteConversationById (db : DB) (i : Nat) : DB :=
  { db with conversations := db.conversations.filter (fun c => c.id != i) }

/-- Model of `ctx.db.delete(branch._id)`. -/
def deleteBranchById (db : DB) (i : Nat) : DB :=
  { db with branches := db.branches.filter (fun b => b.id != i) }

/-- The body of the per-branch loop of `deleteConversation` (conversations.ts,
lines 239–252): delete the branch conversation's messages, the branch
conversation, and the branch record. -/
def deleteBranchTarget (db : DB) (b : Branch) : DB :=
  let bms := messagesOf db b.branchConversationId
  let d1 := bms.foldl (fun d m => deleteMessageById d m.id) db
  let d2 := deleteConversationById d1 b.branchConversationId
  deleteBranchById d2 b.id

/-- Embedding of `deleteConversation` (conversations.ts, lines 212–257): delete own
messages, then every branch rooted here together with its target
conversation and that conversation's messages, then the conversation. -/
def deleteConversation (db : DB) (userId cid : Nat) : Except Err (Unit × DB) :=
  match findConv db cid with
  | none => .error .conversationNotFound
  | some conv =>
    if conv.userId = userId then
      let own := messagesOf db cid
      let db1 := own.foldl (fun d m => deleteMessageById d m.id) db
      let brs := db1.branches.filter (fun b => b.parentConversationId == cid)
      let db2 := brs.foldl deleteBranchTarget db1
      .ok ((), deleteConversationById db2 cid)
    else .error .conversationNotFound

/-- Embedding of `duplicateConversation` (conversations.ts, lines 260–298): new
conversation titled `"{title} (Copy)"`, all messages copied in ascending
index order with provenance and `messageIndex` preserved. -/
def duplicateConversation (db : DB) (userId cid : Nat) : Except Err (Nat × DB) :=
  match findConv db cid with
  | none => .error .conversationNotFound
  | some conv =>
    if conv.userId = userId then
      let r := insertConversation db userId (conv.title ++ " (Copy)") none none
      let ncid := r.1
      let db1 := r.2
      let sorted := sortByIndex (messagesOf db1 cid)
      let db2 := insertCopies db1 ncid sorted
      .ok (ncid, db2)
    else .error .conversationNotFound

/-- Embedding of `getApiKey` (settings.ts, lines 295–310): by-user index, filter by
provider, filter by `isActive`, `.first()`. -/
def getApiKey (db : DB) (userId : Nat) (provider : String) : Option ApiKey :=
  ((((db.apiKeys.filter (fun k => k.userId == userId)).filter
    (fun k => k.provider == provider)).filter (fun k => k.isActive))).head?

/-- Model of `ctx.db.patch(key._id, ...)` clearing the active flag. -/
def deactivateApiKeyById (db : DB) (i : Nat) : DB :=
  { db with
    apiKeys := db.apiKeys.map (fun k => if k.id == i then { k with isActive := false } else k) }

/-- Embedding of `saveApiKey` (settings.ts, lines 313–341): patch `isActive := false` on
every existing key of this user for this provider, then insert the new key
as active.  The provider string is not validated against the registry. -/
def saveApiKey (db : DB) (userId : Nat) (provider apiKey : String) : Nat × DB :=
  let existing := (db.apiKeys.filter (fun k => k.userId == userId)).filter
    (fun k => k.provider == provider)
  let db1 := existing.foldl (fun d k => deactivateApiKeyById d k.id) db
  insertApiKey db1 userId provider apiKey true

/-- Embedding of `deleteApiKey` (settings.ts, lines 344–357): hard delete by id after the
ownership check. -/
def deleteApiKey (db : DB) (userId kid : Nat) : Except Err (Unit × DB) :=
  match db.apiKeys.find? (fun k => k.id == kid) with
  | none => .error .apiKeyNotFound
  | some k =>
    if k.userId = userId then
      .ok ((), { db with apiKeys := db.apiKeys.filter (fun k => k.id != kid) })
    else .error .apiKeyNotFound

/-- The upstream world's reaction to one outbound request, keyed by the
message history the adapter sends: a 2xx response with an extractable reply,
a non-2xx status with a body, or a 2xx response whose JSON lacks the
expected reply field. -/
inductive NetResult where
  | ok (reply : String)
  | httpErr (status : Nat) (body : String)
  | badBody (desc : String)
deriving DecidableEq, Repr

/-- The external network: what the upstream returns for each request history. -/
abbrev Net : Type := List (String × String) → NetResult

/-- The fixed `PROVIDERS` registry (ai.ts, lines 9–26):
provider identifier, base URL, supported models. -/
def PROVIDERS : List (String × String × List String) :=
  [("openai", "https://api.openai.com/v1", ["gpt-4o-mini", "gpt-3.5-turbo"]),
   ("google", "https://generativelanguage.googleapis.com/v1beta",
     ["gemini-2.0-flash", "gemini-1.5-flash"]),
   ("groq", "https://api.groq.com/openai/v1",
     ["llama-3.1-8b-instant", "mixtral-8x7b-32768", "gemma2-9b-it"]),
   ("deepseek", "https://api.deepseek.com/v1", ["deepseek-chat"])]

/-- Base-URL lookup in the registry. -/
def baseURLOf (provider : String) : String :=
  match PROVIDERS.find? (fun p => p.1 == provider) with
  | some p => p.2.1
  | none => ""

/-- Embedding of `callOpenAICompatibleAPI` (ai.ts, lines 109–136): non-2xx throws
`API Error: {status} - {body}`; otherwise the reply text is read out of the
response body. -/
def callOpenAICompatibleAPI (net : Net) (baseURL apiKey model : String)
    (messages : List (String × String)) : Except Err String :=
  match net messages with
  | .ok reply => .ok reply
  | .httpErr status body => .error (.apiError status body)
  | .badBody d => .error (.badResponseBody d)

/-- The role remapping of `callGoogleAPI` (ai.ts, lines 144–147): logical
`assistant` becomes wire role `model`, everything else becomes `user`. -/
def googleWireContents (messages : List (String × String)) : List (String × String) :=
  messages.map (fun m => (if m.1 == "assistant" then "model" else "user", m.2))

/-- Embedding of `callGoogleAPI` (ai.ts, lines 138–173). -/
def callGoogleAPI (net : Net) (apiKey model : String)
    (messages : List (String × String)) : Except Err String :=
  match net (googleWireContents messages) with
  | .ok reply => .ok reply
  | .httpErr status body => .error (.googleApiError status body)
  | .badBody d => .error (.badResponseBody d)

/-- The provider conditional inside `sendMessage`'s try block (ai.ts,
lines 75–90), including the `Unsupported provider` throw. -/
def dispatchProvider (net : Net) (provider apiKey model : String)
    (messages : List (String × String)) : Except Err String :=
  if provider == "openai" || provider == "groq" || provider == "deepseek" then
    callOpenAICompatibleAPI net (baseURLOf provider) apiKey model messages
  else if provider == "google" then
    callGoogleAPI net apiKey model messages
  else
    .error (.unsupportedProvider provider)

/-- Embedding of the request assembly of `sendMessage` (ai.ts, lines 61–70): the stored history
mapped to `{role, content}` pairs, then the just-sent user message pushed on
top. -/
def buildApiMessages (history : List Message) (newMessage : String) :
    List (String × String) :=
  (history.map (fun m => (m.role, m.content))) ++ [("user", newMessage)]

/-- The part of `sendMessage` (ai.ts, lines 40–70) that runs before the
upstream call: credential lookup, append of the user message, read-back of
the conversation history through the index, request assembly.  Returns the
key, the history that will be sent upstream, and the post-append store. -/
def sendMessagePrepared (db : DB) (userId cid : Nat) (message provider : String) :
    Except Err (String × List (String × String) × DB) :=
  match getApiKey db userId provider with
  | none => .error (.noApiKey provider)
  | some keyRec =>
    match addMessage db userId cid message "user" none none with
    | .error e => .error e
    | .ok (_, db1) =>
      .ok (keyRec.apiKey, buildApiMessages (messagesSortedOf db1 cid) message, db1)

/-- Embedding of `sendMessage` (ai.ts, lines 28–107).  The try/catch around the dispatch
and the assistant append rethrows any failure as
`Failed to get response from {provider}: {error}` (`Err.requestFailed`).
The second component is the store after the action: mutations already run
are not rolled back by a later throw. -/
def sendMessage (db : DB) (userId cid : Nat) (message provider model : String)
    (net : Net) : Except Err String × DB :=
  match sendMessagePrepared db userId cid message provider with
  | .error e => (.error e, db)
  | .ok (apiKey, apiMessages, db1) =>
    match dispatchProvider net provider apiKey model apiMessages with
    | .error e => (.error (.requestFailed provider e), db1)
    | .ok reply =>
      match addMessage db1 userId cid reply "assistant" (some provider) (some model) with
      | .error e => (.error (.requestFailed provider e), db1)
      | .ok (_, db2) => (.ok reply, db2)

/-- The structured result of `testApiKey`. -/
structure TestResult where
  success : Bool
  message : String
deriving DecidableEq, Repr

/-- Rendering of a thrown error, standing in for JavaScript's string
interpolation of the caught `error` value. -/
def errText : Err → String
  | .noApiKey p => "No API key found for provider: " ++ p
  | .conversationNotFound => "Conversation not found"
  | .parentConversationNotFound => "Parent conversation not found"
  | .branchMessageNotFound => "Branch message not found"
  | .apiKeyNotFound => "API key not found"
  | .unsupportedProvider p => "Unsupported provider: " ++ p
  | .apiError s b => "API Error: " ++ toString s ++ " - " ++ b
  | .googleApiError s b => "Google API Error: " ++ toString s ++ " - " ++ b
  | .badResponseBody d => d
  | .requestFailed p e => "Failed to get response from " ++ p ++ ": " ++ errText e

/-- Embedding of `testApiKey` (ai.ts, lines 175–203).  Its provider conditional has no
`else` branch: a provider outside the registry performs no upstream call and
falls through to the success return. -/
def testApiKey (provider apiKey model : String) (net : Net) : TestResult :=
  let testMessages : List (String × String) := [("user", "Hello, this is a test message.")]
  let attempt : Except Err Unit :=
    if provider == "openai" || provider == "groq" || provider == "deepseek" then
      (callOpenAICompatibleAPI net (baseURLOf provider) apiKey model testMessages).map
        (fun _ => ())
    else if provider == "google" then
      (callGoogleAPI net apiKey model testMessages).map (fun _ => ())
    else
      .ok ()
  match attempt with
  | .ok _ => { success := true, message := "API key is valid" }
  | .error e => { success := false, message := "API key test failed: " ++ errText e }

/-- The message-log operations of claim C3, one constructor per mutation. -/
inductive Op where
  | addMsg (userId cid : Nat) (content role : String) (provider model : Option String)
  | branch (userId pcid mid : Nat) (name : String)
  | dup (userId cid : Nat)
  | del (userId cid : Nat)

/-- Run one operation; a thrown error leaves the store unchanged. -/
def applyOp (db : DB) : Op → DB
  | .addMsg u cid content role p m =>
    match addMessage db u cid content role p m with
    | .ok r => r.2
    | .error _ => db
  | .branch u pcid mid name =>
    match createBranch db u pcid mid name with
    | .ok r => r.2
    | .error _ => db
  | .dup u cid =>
    match duplicateConversation db u cid with
    | .ok r => r.2
    | .error _ => db
  | .del u cid =>
    match deleteConversation db u cid with
    | .ok r => r.2
    | .error _ => db

/-- Run a sequence of message-log operations. -/
def applyOps (db : DB) (ops : List Op) : DB := ops.foldl applyOp db

/-- The credential-store operations of claim C6. -/
inductive KeyOp where
  | save (userId : Nat) (provider apiKey : String)
  | del (userId kid : Nat)

/-- Run one credential operation; a thrown error leaves the store unchanged. -/
def applyKeyOp (db : DB) : KeyOp → DB
  | .save u p s => (saveApiKey db u p s).2
  | .del u kid =>
    match deleteApiKey db u kid with
    | .ok r => r.2
    | .error _ => db

/-- Run a sequence of credential operations. -/
def applyKeyOps (db : DB) (ops : List KeyOp) : DB := ops.foldl applyKeyOp db

/-- Record-identifier hygiene of the store: every id and every
`conversationId`/`branchConversationId` reference is below the fresh-id
counter, and ids are unique per table. -/
def WF (db : DB) : Prop :=
  (∀ m ∈ db.messages, m.id < db.nextId ∧ m.conversationId < db.nextId) ∧
  (∀ c ∈ db.conversations, c.id < db.nextId) ∧
  (∀ b ∈ db.branches, b.id < db.nextId ∧ b.branchConversationId < db.nextId) ∧
  (∀ k ∈ db.apiKeys, k.id < db.nextId) ∧
  (db.messages.map (fun m => m.id)).Nodup ∧
  (db.conversations.map (fun c => c.id)).Nodup ∧
  (db.branches.map (fun b => b.id)).Nodup ∧
  (db.apiKeys.map (fun k => k.id)).Nodup

/-- The `messageIndex` values of a conversation's messages. -/
def convIndices (db : DB) (cid : Nat) : List Nat :=
  (messagesOf db cid).map (fun m => m.messageIndex)

/-- A list of naturals is dense when, sorted ascending, it is exactly
`0..n-1` for `n` its length. -/
def densList (l : List Nat) : Prop :=
  List.insertionSort (· ≤ ·) l = List.range l.length

/-- Density of one conversation's log: its `messageIndex` values, sorted
ascending, are exactly `0..n-1` for `n` the conversation's message count. -/
def denseConv (db : DB) (cid : Nat) : Prop :=
  densList (convIndices db cid)

/-- Density of every conversation in the store. -/
def DenseInv (db : DB) : Prop := ∀ c ∈ db.conversations, denseConv db c.id

instance (db : DB) : Decidable (WF db) := by unfold WF; infer_instance

instance (l : List Nat) : Decidable (densList l) := by unfold densList; infer_instance

instance (db : DB) (cid : Nat) : Decidable (denseConv db cid) := by
  unfold denseConv; infer_instance

instance (db : DB) : Decidable (DenseInv db) := by unfold DenseInv; infer_instance

/-! ## Generic list lemmas -/

theorem map_filter_eq {α β : Type} (f : α → β) (q : β → Bool) (l : List α) :
    (l.filter (fun a => q (f a))).map f = (l.map f).filter q := by
  induction l with
  | nil => rfl
  | cons a t ih =>
    by_cases h : q (f a) <;> simp [List.filter_cons, h, ih]

theorem filter_le_range {k n : Nat} (h : k < n) :
    (List.range n).filter (fun i => decide (i ≤ k)) = List.range (k + 1) := by
  induction n with
  | zero => omega
  | succ n ih =>
    rw [List.range_succ, List.filter_append]
    rcases Nat.lt_or_ge k n with hlt | hge
    · rw [ih hlt]
      have : ¬ n ≤ k := by omega
      simp [this]
    · have hkn : k = n := by omega
      subst hkn
      have h1 : (List.range k).filter (fun i => decide (i ≤ k)) = List.range k := by
        rw [List.filter_eq_self]
        intro a ha
        have := List.mem_range.mp ha
        simpa using Nat.le_of_lt this
      rw [h1]
      simp [List.range_succ]

/-! ## Density machinery -/

theorem densList_iff {l : List Nat} : densList l ↔ l.Perm (List.range l.length) := by
  constructor
  · intro h
    have hp : l.Perm (List.insertionSort (· ≤ ·) l) :=
      (List.perm_insertionSort (· ≤ ·) l).symm
    rw [h] at hp
    exact hp
  · intro h
    exact List.eq_of_perm_of_sorted ((List.perm_insertionSort (· ≤ ·) l).trans h)
      (List.sorted_insertionSort (· ≤ ·) l) (List.sorted_le_range _)

theorem densList_of_perm {l l' : List Nat} (p : l.Perm l') (h : densList l') :
    densList l := by
  refine densList_iff.mpr ?_
  rw [p.length_eq]
  exact p.trans (densList_iff.mp h)

theorem densList_append {l : List Nat} (h : densList l) : densList (l ++ [l.length]) := by
  refine densList_iff.mpr ?_
  have h1 : (l ++ [l.length]).Perm (List.range l.length ++ [l.length]) :=
    (densList_iff.mp h).append_right _
  rw [← List.range_succ] at h1
  simpa using h1

theorem densList_filter_le {l : List Nat} {k : Nat} (h : densList l) (hk : k ∈ l) :
    densList (l.filter (fun i => decide (i ≤ k))) := by
  have hperm : l.Perm (List.range l.length) := densList_iff.mp h
  have hkr : k ∈ List.range l.length := hperm.mem_iff.mp hk
  have hklt : k < l.length := List.mem_range.mp hkr
  have hfp : (l.filter (fun i => decide (i ≤ k))).Perm
      ((List.range l.length).filter (fun i => decide (i ≤ k))) :=
    hperm.filter _
  rw [filter_le_range hklt] at hfp
  have hlen : (l.filter (fun i => decide (i ≤ k))).length = k + 1 := by
    rw [hfp.length_eq, List.length_range]
  refine densList_iff.mpr ?_
  rw [hlen]
  exact hfp

/-! ## Small frame lemmas -/

@[simp] theorem patchTitle_messages (db : DB) (cid : Nat) (t : String) :
    (patchTitle db cid t).messages = db.messages := rfl

@[simp] theorem patchTitle_branches (db : DB) (cid : Nat) (t : String) :
    (patchTitle db cid t).branches = db.branches := rfl

@[simp] theorem patchTitle_apiKeys (db : DB) (cid : Nat) (t : String) :
    (patchTitle db cid t).apiKeys = db.apiKeys := rfl

@[simp] theorem patchTitle_nextId (db : DB) (cid : Nat) (t : String) :
    (patchTitle db cid t).nextId = db.nextId := rfl

theorem patchTitle_ids (db : DB) (cid : Nat) (t : String) :
    (patchTitle db cid t).conversations.map (fun c => c.id) =
      db.conversations.map (fun c => c.id) := by
  unfold patchTitle
  simp only [List.map_map]
  apply List.map_congr_left
  intro c _
  simp only [Function.comp]
  split <;> rfl

theorem mem_patchTitle {db : DB} {cid : Nat} {t : String} {c' : Conversation}
    (h : c' ∈ (patchTitle db cid t).conversations) :
    ∃ c ∈ db.conversations, c'.id = c.id := by
  unfold patchTitle at h
  simp only [List.mem_map] at h
  obtain ⟨c, hc, heq⟩ := h
  refine ⟨c, hc, ?_⟩
  rw [← heq]
  split <;> rfl

theorem mem_findConv {db : DB} {cid : Nat} {conv : Conversation}
    (h : findConv db cid = some conv) : conv ∈ db.conversations ∧ conv.id = cid := by
  unfold findConv at h
  have h1 := List.mem_of_find?_eq_some h
  have h2 := List.find?_some h
  simp only [beq_iff_eq] at h2
  exact ⟨h1, h2⟩

theorem mem_findMessage {db : DB} {mid : Nat} {msg : Message}
    (h : findMessage db mid = some msg) : msg ∈ db.messages ∧ msg.id = mid := by
  unfold findMessage at h
  have h1 := List.mem_of_find?_eq_some h
  have h2 := List.find?_some h
  simp only [beq_iff_eq] at h2
  exact ⟨h1, h2⟩

theorem nodup_append_fresh {l : List Nat} {n : Nat} (h : l.Nodup)
    (hb : ∀ x ∈ l, x < n) : (l ++ [n]).Nodup := by
  rw [List.nodup_append]
  refine ⟨h, List.nodup_singleton n, ?_⟩
  intro a ha hn
  have := hb a ha
  simp only [List.mem_singleton] at hn
  omega

/-! ## `addMessage` characterization -/

theorem addMessage_ok {db : DB} {u cid : Nat} {content role : String}
    {p m : Option String} {mid : Nat} {db' : DB}
    (h : addMessage db u cid content role p m = .ok (mid, db')) :
    ∃ conv, findConv db cid = some conv ∧ conv.userId = u ∧
      mid = db.nextId ∧
      db'.messages = db.messages ++
        [{ id := db.nextId, conversationId := cid, content := content, role := role,
           provider := p, model := m, messageIndex := (messagesOf db cid).length }] ∧
      db'.branches = db.branches ∧ db'.apiKeys = db.apiKeys ∧
      db'.nextId = db.nextId + 1 ∧
      (db'.conversations = db.conversations ∨
        db'.conversations = (patchTitle db cid (deriveTitle content)).conversations) := by
  unfold addMessage at h
  cases hc : findConv db cid with
  | none => rw [hc] at h; exact absurd h (by simp)
  | some conv =>
    rw [hc] at h
    simp only [] at h
    by_cases hu : conv.userId = u
    · rw [if_pos hu] at h
      refine ⟨conv, rfl, hu, ?_⟩
      by_cases hcond : ((messagesOf db cid).length == 0 && role == "user" &&
          conv.title == "New Conversation") = true
      · rw [if_pos hcond] at h
        simp only [Except.ok.injEq, insertMessage, Prod.mk.injEq] at h
        obtain ⟨hmid, hdb⟩ := h
        subst hdb
        exact ⟨hmid.symm, by simp, rfl, rfl, rfl, Or.inr rfl⟩
      · rw [if_neg hcond] at h
        simp only [Except.ok.injEq, insertMessage, Prod.mk.injEq] at h
        obtain ⟨hmid, hdb⟩ := h
        subst hdb
        exact ⟨hmid.symm, rfl, rfl, rfl, rfl, Or.inl rfl⟩
    · rw [if_neg hu] at h
      exact absurd h (by simp)

theorem convIndices_append_one {db db' : DB} {msg : Message}
    (h : db'.messages = db.messages ++ [msg]) (cid : Nat) :
    convIndices db' cid = convIndices db cid ++
      (if msg.conversationId = cid then [msg.messageIndex] else []) := by
  unfold convIndices messagesOf
  rw [h, List.filter_append, List.map_append]
  by_cases hc : msg.conversationId = cid <;> simp [hc]

theorem convIndices_length (db : DB) (cid : Nat) :
    (convIndices db cid).length = (messagesOf db cid).length := by
  unfold convIndices
  simp

theorem addMessage_dense {db : DB} {u cid : Nat} {content role : String}
    {p m : Option String} {mid : Nat} {db' : DB}
    (h : addMessage db u cid content role p m = .ok (mid, db'))
    (hd : DenseInv db) : DenseInv db' := by
  obtain ⟨conv, hc, hu, hmid, hmsg, hbr, hak, hnext, hconv⟩ := addMessage_ok h
  intro c' hc'
  have hcid : ∃ c ∈ db.conversations, c'.id = c.id := by
    rcases hconv with h1 | h1 <;> rw [h1] at hc'
    · exact ⟨c', hc', rfl⟩
    · exact mem_patchTitle hc'
  obtain ⟨c, hcm, hid⟩ := hcid
  unfold denseConv
  rw [hid, convIndices_append_one hmsg]
  by_cases hcc : cid = c.id
  · subst hcc
    simp only [if_pos rfl]
    have := hd c hcm
    unfold denseConv at this
    have hlen := convIndices_length db c.id
    rw [← hlen]
    exact densList_append this
  · simp only [if_neg hcc, List.append_nil]
    exact hd c hcm

theorem addMessage_wf {db : DB} {u cid : Nat} {content role : String}
    {p m : Option String} {mid : Nat} {db' : DB}
    (h : addMessage db u cid content role p m = .ok (mid, db'))
    (hw : WF db) : WF db' := by
  obtain ⟨conv, hc, hu, hmid, hmsg, hbr, hak, hnext, hconv⟩ := addMessage_ok h
  obtain ⟨hwm, hwc, hwb, hwk, hnm, hnc, hnb, hnk⟩ := hw
  obtain ⟨hcmem, hcid⟩ := mem_findConv hc
  have hcidlt : cid < db.nextId := hcid ▸ hwc conv hcmem
  refine ⟨?_, ?_, ?_, ?_, ?_, ?_, ?_, ?_⟩
  · intro m' hm'
    rw [hmsg] at hm'
    rw [hnext]
    rcases List.mem_append.mp hm' with h1 | h1
    · have := hwm m' h1; omega
    · simp only [List.mem_singleton] at h1
      subst h1
      simp only []
      omega
  · intro c' hc'
    rw [hnext]
    have : ∃ c ∈ db.conversations, c'.id = c.id := by
      rcases hconv with h1 | h1 <;> rw [h1] at hc'
      · exact ⟨c', hc', rfl⟩
      · exact mem_patchTitle hc'
    obtain ⟨c, hcm2, hid⟩ := this
    have := hwc c hcm2
    omega
  · intro b hb
    rw [hbr] at hb
    rw [hnext]
    have := hwb b hb
    omega
  · intro k hk
    rw [hak] at hk
    rw [hnext]
    have := hwk k hk
    omega
  · rw [hmsg, List.map_append]
    simp only [List.map_cons, List.map_nil]
    exact nodup_append_fresh hnm (fun x hx => by
      obtain ⟨m2, hm2, hm2e⟩ := List.mem_map.mp hx
      rw [← hm2e]
      exact (hwm m2 hm2).1)
  · rcases hconv with h1 | h1 <;> rw [h1]
    · exact hnc
    · rw [patchTitle_ids]
      exact hnc
  · rw [hbr]; exact hnb
  · rw [hak]; exact hnk

/-! ## Batch message copying (`createBranch`, `duplicateConversation`) -/

/-- The records produced by a copy loop inserting into conversation `bcid`,
with fresh ids counting up from `n`. -/
def copyRecords (bcid : Nat) : Nat → List Message → List Message
  | _, [] => []
  | n, m :: ms =>
    { id := n, conversationId := bcid, content := m.content, role := m.role,
      provider := m.provider, model := m.model, messageIndex := m.messageIndex } ::
      copyRecords bcid (n + 1) ms

/-- The non-identity data of a message: everything `createBranch` and
`duplicateConversation` preserve. -/
def msgData (m : Message) : String × String × Option String × Option String × Nat :=
  (m.content, m.role, m.provider, m.model, m.messageIndex)

theorem insertCopies_spec (bcid : Nat) (l : List Message) (db : DB) :
    (insertCopies db bcid l).messages = db.messages ++ copyRecords bcid db.nextId l ∧
    (insertCopies db bcid l).nextId = db.nextId + l.length ∧
    (insertCopies db bcid l).conversations = db.conversations ∧
    (insertCopies db bcid l).branches = db.branches ∧
    (insertCopies db bcid l).apiKeys = db.apiKeys := by
  induction l generalizing db with
  | nil => simp [insertCopies, copyRecords]
  | cons m ms ih =>
    have h := ih ((insertMessage db bcid m.content m.role m.provider m.model
      m.messageIndex).2)
    obtain ⟨h1, h2, h3, h4, h5⟩ := h
    have hstep : insertCopies db bcid (m :: ms) =
        insertCopies ((insertMessage db bcid m.content m.role m.provider m.model
          m.messageIndex).2) bcid ms := rfl
    rw [hstep]
    have e1 : (insertMessage db bcid m.content m.role m.provider m.model
        m.messageIndex).2.messages = db.messages ++
        [{ id := db.nextId, conversationId := bcid, content := m.content, role := m.role,
           provider := m.provider, model := m.model, messageIndex := m.messageIndex }] := rfl
    have e2 : (insertMessage db bcid m.content m.role m.provider m.model
        m.messageIndex).2.nextId = db.nextId + 1 := rfl
    have e3 : (insertMessage db bcid m.content m.role m.provider m.model
        m.messageIndex).2.conversations = db.conversations := rfl
    have e4 : (insertMessage db bcid m.content m.role m.provider m.model
        m.messageIndex).2.branches = db.branches := rfl
    have e5 : (insertMessage db bcid m.content m.role m.provider m.model
        m.messageIndex).2.apiKeys = db.apiKeys := rfl
    refine ⟨?_, ?_, ?_, ?_, ?_⟩
    · rw [h1, e1, e2]
      simp [copyRecords, List.append_assoc]
    · rw [h2, e2]
      simp only [List.length_cons]
      omega
    · rw [h3, e3]
    · rw [h4, e4]
    · rw [h5, e5]

theorem copyRecords_map_data (bcid n : Nat) (l : List Message) :
    (copyRecords bcid n l).map msgData = l.map msgData := by
  induction l generalizing n with
  | nil => rfl
  | cons m ms ih => simp [copyRecords, msgData, ih]

theorem copyRecords_map_idx (bcid n : Nat) (l : List Message) :
    (copyRecords bcid n l).map (fun m => m.messageIndex) =
      l.map (fun m => m.messageIndex) := by
  induction l generalizing n with
  | nil => rfl
  | cons m ms ih => simp [copyRecords, ih]

theorem mem_copyRecords {bcid n : Nat} {l : List Message} {m' : Message}
    (h : m' ∈ copyRecords bcid n l) :
    m'.conversationId = bcid ∧ n ≤ m'.id ∧ m'.id < n + l.length := by
  induction l generalizing n with
  | nil => cases h
  | cons m ms ih =>
    simp only [copyRecords, List.mem_cons] at h
    rcases h with h | h
    · subst h
      refine ⟨rfl, Nat.le_refl n, by simp⟩
    · obtain ⟨h1, h2, h3⟩ := ih h
      refine ⟨h1, by omega, by simp; omega⟩

theorem copyRecords_ids (bcid n : Nat) (l : List Message) :
    (copyRecords bcid n l).map (fun m => m.id) = List.range' n l.length := by
  induction l generalizing n with
  | nil => rfl
  | cons m ms ih => simp [copyRecords, ih, List.range'_succ]

theorem copyRecords_filter_self (bcid n : Nat) (l : List Message) :
    (copyRecords bcid n l).filter (fun m => m.conversationId == bcid) =
      copyRecords bcid n l := by
  rw [List.filter_eq_self]
  intro m' hm'
  have := (mem_copyRecords hm').1
  simp [this]

theorem copyRecords_filter_ne {bcid cid n : Nat} (hne : cid ≠ bcid) (l : List Message) :
    (copyRecords bcid n l).filter (fun m => m.conversationId == cid) = [] := by
  rw [List.filter_eq_nil_iff]
  intro m' hm'
  have := (mem_copyRecords hm').1
  simp [this, hne.symm]

/-! ## `createBranch` characterization -/

/-- The messages `createBranch` copies: the parent's messages with
`messageIndex` at most the branch point's, sorted ascending. -/
def toCopy (db : DB) (pcid : Nat) (bm : Message) : List Message :=
  sortByIndex ((messagesOf db pcid).filter (fun m => m.messageIndex ≤ bm.messageIndex))

theorem createBranch_ok {db : DB} {u pcid mid : Nat} {name : String}
    {bid bcid : Nat} {db' : DB}
    (h : createBranch db u pcid mid name = .ok ((bid, bcid), db')) :
    ∃ parent bm, findConv db pcid = some parent ∧ parent.userId = u ∧
      findMessage db mid = some bm ∧ bm.conversationId = pcid ∧
      bcid = db.nextId ∧
      bid = db.nextId + 1 + (toCopy db pcid bm).length ∧
      db'.messages = db.messages ++
        copyRecords db.nextId (db.nextId + 1) (toCopy db pcid bm) ∧
      db'.conversations = db.conversations ++
        [{ id := db.nextId, userId := u, title := parent.title ++ " - " ++ name,
           parentBranchId := none, branchFromMessageId := some mid }] ∧
      db'.branches = db.branches ++
        [{ id := db.nextId + 1 + (toCopy db pcid bm).length, userId := u,
           parentConversationId := pcid, branchConversationId := db.nextId,
           branchFromMessageId := mid, name := name, isActive := true }] ∧
      db'.apiKeys = db.apiKeys ∧
      db'.nextId = db.nextId + 1 + (toCopy db pcid bm).length + 1 := by
  unfold createBranch at h
  cases hp : findConv db pcid with
  | none => rw [hp] at h; exact absurd h (by simp)
  | some parent =>
    rw [hp] at h
    simp only [] at h
    by_cases hu : parent.userId = u
    · rw [if_pos hu] at h
      cases hm : findMessage db mid with
      | none => rw [hm] at h; exact absurd h (by simp)
      | some bm =>
        rw [hm] at h
        simp only [] at h
        by_cases hbc : bm.conversationId = pcid
        · rw [if_pos hbc] at h
          refine ⟨parent, bm, rfl, hu, rfl, hbc, ?_⟩
          set db1 := (insertConversation db u (parent.title ++ " - " ++ name)
            none (some mid)).2 with hdb1
          have hTC : sortByIndex ((messagesOf db1 pcid).filter
              (fun m => m.messageIndex ≤ bm.messageIndex)) = toCopy db pcid bm := rfl
          obtain ⟨c1, c2, c3, c4, c5⟩ :=
            insertCopies_spec db.nextId (toCopy db pcid bm) db1
          have hn1 : db1.nextId = db.nextId + 1 := rfl
          have hb1m : db1.messages = db.messages := rfl
          have hb1c : db1.conversations = db.conversations ++
            [{ id := db.nextId, userId := u, title := parent.title ++ " - " ++ name,
               parentBranchId := none, branchFromMessageId := some mid }] := rfl
          have hb1b : db1.branches = db.branches := rfl
          have hb1k : db1.apiKeys = db.apiKeys := rfl
          simp only [insertConversation, insertBranch] at h
          simp only [Except.ok.injEq, Prod.mk.injEq] at h
          obtain ⟨⟨hbid, hbcid⟩, hdb⟩ := h
          rw [hTC] at hbid hdb
          have e1 : db'.messages =
              (insertCopies db1 db.nextId (toCopy db pcid bm)).messages := by
            rw [← hdb]
          have e2 : db'.conversations =
              (insertCopies db1 db.nextId (toCopy db pcid bm)).conversations := by
            rw [← hdb]
          have e3 : db'.branches =
              (insertCopies db1 db.nextId (toCopy db pcid bm)).branches ++
              [{ id := (insertCopies db1 db.nextId (toCopy db pcid bm)).nextId,
                 userId := u, parentConversationId := pcid,
                 branchConversationId := db.nextId, branchFromMessageId := mid,
                 name := name, isActive := true }] := by
            rw [← hdb]
          have e4 : db'.apiKeys =
              (insertCopies db1 db.nextId (toCopy db pcid bm)).apiKeys := by
            rw [← hdb]
          have e5 : db'.nextId =
              (insertCopies db1 db.nextId (toCopy db pcid bm)).nextId + 1 := by
            rw [← hdb]
          refine ⟨hbcid.symm, ?_, ?_, ?_, ?_, ?_, ?_⟩
          · rw [← hbid, c2, hn1]
          · rw [e1, c1, hn1, hb1m]
          · rw [e2, c3, hb1c]
          · rw [e3, c4, hb1b, c2, hn1]
          · rw [e4, c5, hb1k]
          · rw [e5, c2, hn1]
        · rw [if_neg hbc] at h
          exact absurd h (by simp)
    · rw [if_neg hu] at h
      exact absurd h (by simp)

theorem messagesOf_append {db db' : DB} {l : List Message}
    (h : db'.messages = db.messages ++ l) (cid : Nat) :
    messagesOf db' cid = messagesOf db cid ++
      l.filter (fun m => m.conversationId == cid) := by
  unfold messagesOf
  rw [h, List.filter_append]

theorem messagesOf_ge_nil {db : DB} {cid : Nat}
    (hwm : ∀ m ∈ db.messages, m.conversationId < db.nextId)
    (hge : db.nextId ≤ cid) : messagesOf db cid = [] := by
  unfold messagesOf
  rw [List.filter_eq_nil_iff]
  intro m hm
  have := hwm m hm
  simp only [beq_iff_eq]
  omega

theorem nodup_append_of_bound {l1 l2 : List Nat} (h1 : l1.Nodup) (h2 : l2.Nodup)
    (hb : ∀ x ∈ l1, ∀ y ∈ l2, x < y) : (l1 ++ l2).Nodup := by
  rw [List.nodup_append]
  refine ⟨h1, h2, ?_⟩
  intro a ha ha2
  have := hb a ha a ha2
  omega

theorem mem_range'_bounds {s n x : Nat} (h : x ∈ List.range' s n) :
    s ≤ x ∧ x < s + n := by
  rw [List.mem_range'] at h
  obtain ⟨i, hi, hx⟩ := h
  omega

theorem createBranch_dense {db : DB} {u pcid mid : Nat} {name : String}
    {bid bcid : Nat} {db' : DB}
    (h : createBranch db u pcid mid name = .ok ((bid, bcid), db'))
    (hw : WF db) (hd : DenseInv db) : DenseInv db' := by
  obtain ⟨parent, bm, hp, hu, hm, hbc, hbcid, hbid, hmsg, hconv, hbr, hak, hnext⟩ :=
    createBranch_ok h
  obtain ⟨hwm, hwc, hwb, hwk, hnm, hnc, hnb, hnk⟩ := hw
  obtain ⟨hpmem, hpid⟩ := mem_findConv hp
  obtain ⟨hbmmem, hbmid⟩ := mem_findMessage hm
  intro c' hc'
  rw [hconv, List.mem_append] at hc'
  unfold denseConv
  rcases hc' with hold | hnew
  · -- a pre-existing conversation: its message set is unchanged
    have hlt : c'.id < db.nextId := hwc c' hold
    have hne : c'.id ≠ db.nextId := by omega
    have hfofs := messagesOf_append hmsg c'.id
    rw [copyRecords_filter_ne hne, List.append_nil] at hfofs
    unfold convIndices
    rw [hfofs]
    exact hd c' hold
  · -- the new branch conversation
    simp only [List.mem_singleton] at hnew
    subst hnew
    simp only []
    have hfofs := messagesOf_append hmsg db.nextId
    rw [copyRecords_filter_self] at hfofs
    have hnil : messagesOf db db.nextId = [] :=
      messagesOf_ge_nil (fun m hm2 => (hwm m hm2).2) (Nat.le_refl _)
    rw [hnil, List.nil_append] at hfofs
    unfold convIndices
    rw [hfofs, copyRecords_map_idx]
    -- the copied index list is a permutation of the filtered parent indices
    have hperm1 : ((toCopy db pcid bm).map (fun m => m.messageIndex)).Perm
        (((messagesOf db pcid).filter
          (fun m => m.messageIndex ≤ bm.messageIndex)).map (fun m => m.messageIndex)) :=
      (List.perm_insertionSort byIndex _).map _
    have heqf : ((messagesOf db pcid).filter
          (fun m => m.messageIndex ≤ bm.messageIndex)).map (fun m => m.messageIndex) =
        (convIndices db pcid).filter (fun i => decide (i ≤ bm.messageIndex)) := by
      unfold convIndices
      exact map_filter_eq (fun m => m.messageIndex)
        (fun i => decide (i ≤ bm.messageIndex)) (messagesOf db pcid)
    rw [heqf] at hperm1
    have hdp : densList (convIndices db pcid) := by
      have := hd parent hpmem
      rw [hpid] at this
      exact this
    have hkmem : bm.messageIndex ∈ convIndices db pcid := by
      unfold convIndices
      refine List.mem_map.mpr ⟨bm, ?_, rfl⟩
      unfold messagesOf
      rw [List.mem_filter]
      exact ⟨hbmmem, by simp [hbc]⟩
    exact densList_of_perm hperm1 (densList_filter_le hdp hkmem)

theorem createBranch_wf {db : DB} {u pcid mid : Nat} {name : String}
    {bid bcid : Nat} {db' : DB}
    (h : createBranch db u pcid mid name = .ok ((bid, bcid), db'))
    (hw : WF db) : WF db' := by
  obtain ⟨parent, bm, hp, hu, hm, hbc, hbcid, hbid, hmsg, hconv, hbr, hak, hnext⟩ :=
    createBranch_ok h
  obtain ⟨hwm, hwc, hwb, hwk, hnm, hnc, hnb, hnk⟩ := hw
  obtain ⟨hpmem, hpid⟩ := mem_findConv hp
  refine ⟨?_, ?_, ?_, ?_, ?_, ?_, ?_, ?_⟩
  · intro m' hm'
    rw [hmsg, List.mem_append] at hm'
    rw [hnext]
    rcases hm' with h1 | h1
    · have := hwm m' h1; omega
    · obtain ⟨h1, h2, h3⟩ := mem_copyRecords h1
      omega
  · intro c' hc'
    rw [hconv, List.mem_append] at hc'
    rw [hnext]
    rcases hc' with h1 | h1
    · have := hwc c' h1; omega
    · simp only [List.mem_singleton] at h1
      subst h1
      simp only []
      omega
  · intro b' hb'
    rw [hbr, List.mem_append] at hb'
    rw [hnext]
    rcases hb' with h1 | h1
    · have := hwb b' h1; omega
    · simp only [List.mem_singleton] at h1
      subst h1
      simp only []
      omega
  · intro k hk
    rw [hak] at hk
    rw [hnext]
    have := hwk k hk
    omega
  · rw [hmsg, List.map_append, copyRecords_ids]
    refine nodup_append_of_bound hnm (List.nodup_range' _ _) ?_
    intro x hx y hy
    obtain ⟨m2, hm2, hm2e⟩ := List.mem_map.mp hx
    have hxlt : x < db.nextId := hm2e ▸ (hwm m2 hm2).1
    have := (mem_range'_bounds hy).1
    omega
  · rw [hconv, List.map_append]
    simp only [List.map_cons, List.map_nil]
    exact nodup_append_fresh hnc (fun x hx => by
      obtain ⟨c2, hc2, hc2e⟩ := List.mem_map.mp hx
      rw [← hc2e]
      exact hwc c2 hc2)
  · rw [hbr, List.map_append]
    simp only [List.map_cons, List.map_nil]
    exact nodup_append_fresh hnb (fun x hx => by
      obtain ⟨b2, hb2, hb2e⟩ := List.mem_map.mp hx
      have := (hwb b2 hb2).1
      omega)
  · rw [hak]
    exact hnk

/-! ## `duplicateConversation` characterization -/

theorem duplicateConversation_ok {db : DB} {u cid ncid : Nat} {db' : DB}
    (h : duplicateConversation db u cid = .ok (ncid, db')) :
    ∃ conv, findConv db cid = some conv ∧ conv.userId = u ∧
      ncid = db.nextId ∧
      db'.messages = db.messages ++
        copyRecords db.nextId (db.nextId + 1) (sortByIndex (messagesOf db cid)) ∧
      db'.conversations = db.conversations ++
        [{ id := db.nextId, userId := u, title := conv.title ++ " (Copy)",
           parentBranchId := none, branchFromMessageId := none }] ∧
      db'.branches = db.branches ∧ db'.apiKeys = db.apiKeys ∧
      db'.nextId = db.nextId + 1 + (sortByIndex (messagesOf db cid)).length := by
  unfold duplicateConversation at h
  cases hc : findConv db cid with
  | none => rw [hc] at h; exact absurd h (by simp)
  | some conv =>
    rw [hc] at h
    simp only [] at h
    by_cases hu : conv.userId = u
    · rw [if_pos hu] at h
      refine ⟨conv, rfl, hu, ?_⟩
      set db1 := (insertConversation db u (conv.title ++ " (Copy)") none none).2 with hdb1
      have hS : sortByIndex (messagesOf db1 cid) = sortByIndex (messagesOf db cid) := rfl
      obtain ⟨c1, c2, c3, c4, c5⟩ :=
        insertCopies_spec db.nextId (sortByIndex (messagesOf db cid)) db1
      have hn1 : db1.nextId = db.nextId + 1 := rfl
      have hb1m : db1.messages = db.messages := rfl
      have hb1c : db1.conversations = db.conversations ++
        [{ id := db.nextId, userId := u, title := conv.title ++ " (Copy)",
           parentBranchId := none, branchFromMessageId := none }] := rfl
      have hb1b : db1.branches = db.branches := rfl
      have hb1k : db1.apiKeys = db.apiKeys := rfl
      simp only [insertConversation] at h
      simp only [Except.ok.injEq, Prod.mk.injEq] at h
      obtain ⟨hncid, hdb⟩ := h
      rw [hS] at hdb
      have e1 : db'.messages =
          (insertCopies db1 db.nextId (sortByIndex (messagesOf db cid))).messages := by
        rw [← hdb]
      have e2 : db'.conversations =
          (insertCopies db1 db.nextId (sortByIndex (messagesOf db cid))).conversations := by
        rw [← hdb]
      have e3 : db'.branches =
          (insertCopies db1 db.nextId (sortByIndex (messagesOf db cid))).branches := by
        rw [← hdb]
      have e4 : db'.apiKeys =
          (insertCopies db1 db.nextId (sortByIndex (messagesOf db cid))).apiKeys := by
        rw [← hdb]
      have e5 : db'.nextId =
          (insertCopies db1 db.nextId (sortByIndex (messagesOf db cid))).nextId := by
        rw [← hdb]
      refine ⟨hncid.symm, ?_, ?_, ?_, ?_, ?_⟩
      · rw [e1, c1, hn1, hb1m]
      · rw [e2, c3, hb1c]
      · rw [e3, c4, hb1b]
      · rw [e4, c5, hb1k]
      · rw [e5, c2, hn1]
    · rw [if_neg hu] at h
      exact absurd h (by simp)

theorem duplicateConversation_dense {db : DB} {u cid ncid : Nat} {db' : DB}
    (h : duplicateConversation db u cid = .ok (ncid, db'))
    (hw : WF db) (hd : DenseInv db) : DenseInv db' := by
  obtain ⟨conv, hc, hu, hncid, hmsg, hconv, hbr, hak, hnext⟩ := duplicateConversation_ok h
  obtain ⟨hwm, hwc, hwb, hwk, hnm, hnc, hnb, hnk⟩ := hw
  obtain ⟨hcmem, hcid⟩ := mem_findConv hc
  intro c' hc'
  rw [hconv, List.mem_append] at hc'
  unfold denseConv
  rcases hc' with hold | hnew
  · have hlt : c'.id < db.nextId := hwc c' hold
    have hne : c'.id ≠ db.nextId := by omega
    have hfofs := messagesOf_append hmsg c'.id
    rw [copyRecords_filter_ne hne, List.append_nil] at hfofs
    unfold convIndices
    rw [hfofs]
    exact hd c' hold
  · simp only [List.mem_singleton] at hnew
    subst hnew
    simp only []
    have hfofs := messagesOf_append hmsg db.nextId
    rw [copyRecords_filter_self] at hfofs
    have hnil : messagesOf db db.nextId = [] :=
      messagesOf_ge_nil (fun m hm2 => (hwm m hm2).2) (Nat.le_refl _)
    rw [hnil, List.nil_append] at hfofs
    unfold convIndices
    rw [hfofs, copyRecords_map_idx]
    have hperm1 : ((sortByIndex (messagesOf db cid)).map (fun m => m.messageIndex)).Perm
        ((messagesOf db cid).map (fun m => m.messageIndex)) :=
      (List.perm_insertionSort byIndex _).map _
    have hdp : densList (convIndices db cid) := by
      have := hd conv hcmem
      rw [hcid] at this
      exact this
    exact densList_of_perm hperm1 hdp

theorem duplicateConversation_wf {db : DB} {u cid ncid : Nat} {db' : DB}
    (h : duplicateConversation db u cid = .ok (ncid, db'))
    (hw : WF db) : WF db' := by
  obtain ⟨conv, hc, hu, hncid, hmsg, hconv, hbr, hak, hnext⟩ := duplicateConversation_ok h
  obtain ⟨hwm, hwc, hwb, hwk, hnm, hnc, hnb, hnk⟩ := hw
  refine ⟨?_, ?_, ?_, ?_, ?_, ?_, ?_, ?_⟩
  · intro m' hm'
    rw [hmsg, List.mem_append] at hm'
    rw [hnext]
    rcases hm' with h1 | h1
    · have := hwm m' h1; omega
    · obtain ⟨h1, h2, h3⟩ := mem_copyRecords h1
      omega
  · intro c' hc'
    rw [hconv, List.mem_append] at hc'
    rw [hnext]
    rcases hc' with h1 | h1
    · have := hwc c' h1; omega
    · simp only [List.mem_singleton] at h1
      subst h1
      simp only []
      omega
  · intro b' hb'
    rw [hbr] at hb'
    rw [hnext]
    have := hwb b' hb'
    omega
  · intro k hk
    rw [hak] at hk
    rw [hnext]
    have := hwk k hk
    omega
  · rw [hmsg, List.map_append, copyRecords_ids]
    refine nodup_append_of_bound hnm (List.nodup_range' _ _) ?_
    intro x hx y hy
    obtain ⟨m2, hm2, hm2e⟩ := List.mem_map.mp hx
    have hxlt : x < db.nextId := hm2e ▸ (hwm m2 hm2).1
    have := (mem_range'_bounds hy).1
    omega
  · rw [hconv, List.map_append]
    simp only [List.map_cons, List.map_nil]
    exact nodup_append_fresh hnc (fun x hx => by
      obtain ⟨c2, hc2, hc2e⟩ := List.mem_map.mp hx
      rw [← hc2e]
      exact hwc c2 hc2)
  · rw [hbr]
    exact hnb
  · rw [hak]
    exact hnk

/-! ## `deleteConversation` characterization -/

theorem foldl_deleteMessageById (ms : List Message) (db : DB) :
    (ms.foldl (fun d m => deleteMessageById d m.id) db).messages =
      db.messages.filter
        (fun m => !(ms.map (fun m2 => m2.id)).contains m.id) ∧
    (ms.foldl (fun d m => deleteMessageById d m.id) db).conversations =
      db.conversations ∧
    (ms.foldl (fun d m => deleteMessageById d m.id) db).branches = db.branches ∧
    (ms.foldl (fun d m => deleteMessageById d m.id) db).apiKeys = db.apiKeys ∧
    (ms.foldl (fun d m => deleteMessageById d m.id) db).nextId = db.nextId := by
  induction ms generalizing db with
  | nil =>
    refine ⟨?_, rfl, rfl, rfl, rfl⟩
    simp
  | cons m ms ih =>
    have hstep : (m :: ms).foldl (fun d m2 => deleteMessageById d m2.id) db =
        ms.foldl (fun d m2 => deleteMessageById d m2.id) (deleteMessageById db m.id) := rfl
    rw [hstep]
    obtain ⟨i1, i2, i3, i4, i5⟩ := ih (deleteMessageById db m.id)
    have e1 : (deleteMessageById db m.id).messages =
        db.messages.filter (fun x => x.id != m.id) := rfl
    refine ⟨?_, by rw [i2]; rfl, by rw [i3]; rfl, by rw [i4]; rfl, by rw [i5]; rfl⟩
    rw [i1, e1, List.filter_filter]
    apply List.filter_congr
    intro x _
    simp only [List.map_cons, List.contains_cons, Bool.not_or, bne]
    rw [Bool.and_comm]

theorem contains_filter_map_ids {α : Type} (f : α → Nat) (p : α → Bool) (l : List α)
    (hnd : (l.map f).Nodup) (x : α) (hx : x ∈ l) :
    ((l.filter p).map f).contains (f x) = p x := by
  by_cases hp : p x
  · have hmem : f x ∈ (l.filter p).map f :=
      List.mem_map.mpr ⟨x, List.mem_filter.mpr ⟨hx, hp⟩, rfl⟩
    rw [hp]
    simp only [List.contains_eq_any_beq, List.any_eq_true]
    exact ⟨f x, hmem, by simp⟩
  · simp only [Bool.not_eq_true] at hp
    rw [hp]
    rw [Bool.eq_false_iff]
    intro hcon
    have hmem : f x ∈ (l.filter p).map f := by
      rw [List.contains_eq_any_beq, List.any_eq_true] at hcon
      obtain ⟨y, hy, hyx⟩ := hcon
      simp only [beq_iff_eq] at hyx
      rw [hyx]
      exact hy
    obtain ⟨x2, hx2, hx2e⟩ := List.mem_map.mp hmem
    have hx2mem := List.mem_filter.mp hx2
    have hxx : x2 = x := List.inj_on_of_nodup_map hnd hx2mem.1 hx hx2e
    rw [hxx] at hx2mem
    rw [hx2mem.2] at hp
    cases hp

theorem deleteCollected_messages (db : DB) (p : Message → Bool)
    (hnd : (db.messages.map (fun m => m.id)).Nodup) :
    ((db.messages.filter p).foldl (fun d m => deleteMessageById d m.id) db).messages =
      db.messages.filter (fun m => !(p m)) := by
  obtain ⟨h1, _, _, _, _⟩ := foldl_deleteMessageById (db.messages.filter p) db
  rw [h1]
  apply List.filter_congr
  intro m hm
  have := contains_filter_map_ids (fun m2 => m2.id) p db.messages hnd m hm
  rw [this]

theorem deleteConversationById_fields (db : DB) (i : Nat) :
    (deleteConversationById db i).messages = db.messages ∧
    (deleteConversationById db i).conversations =
      db.conversations.filter (fun c => c.id != i) ∧
    (deleteConversationById db i).branches = db.branches ∧
    (deleteConversationById db i).apiKeys = db.apiKeys ∧
    (deleteConversationById db i).nextId = db.nextId :=
  ⟨rfl, rfl, rfl, rfl, rfl⟩

theorem deleteBranchById_fields (db : DB) (i : Nat) :
    (deleteBranchById db i).messages = db.messages ∧
    (deleteBranchById db i).conversations = db.conversations ∧
    (deleteBranchById db i).branches = db.branches.filter (fun b => b.id != i) ∧
    (deleteBranchById db i).apiKeys = db.apiKeys ∧
    (deleteBranchById db i).nextId = db.nextId :=
  ⟨rfl, rfl, rfl, rfl, rfl⟩

theorem deleteBranchTarget_spec (d : DB) (b : Branch)
    (hnd : (d.messages.map (fun m => m.id)).Nodup) :
    (deleteBranchTarget d b).messages =
      d.messages.filter (fun m => !(m.conversationId == b.branchConversationId)) ∧
    (deleteBranchTarget d b).conversations =
      d.conversations.filter (fun c => c.id != b.branchConversationId) ∧
    (deleteBranchTarget d b).branches = d.branches.filter (fun bb => bb.id != b.id) ∧
    (deleteBranchTarget d b).apiKeys = d.apiKeys ∧
    (deleteBranchTarget d b).nextId = d.nextId := by
  have e0 : deleteBranchTarget d b =
      deleteBranchById (deleteConversationById
        ((messagesOf d b.branchConversationId).foldl
          (fun d2 m => deleteMessageById d2 m.id) d) b.branchConversationId) b.id := rfl
  set d1 := (messagesOf d b.branchConversationId).foldl
    (fun d2 m => deleteMessageById d2 m.id) d with hd1
  obtain ⟨f1, f2, f3, f4, f5⟩ :=
    foldl_deleteMessageById (messagesOf d b.branchConversationId) d
  have hm1 : d1.messages =
      d.messages.filter (fun m => !(m.conversationId == b.branchConversationId)) := by
    rw [hd1]
    exact deleteCollected_messages d
      (fun m => m.conversationId == b.branchConversationId) hnd
  obtain ⟨g1, g2, g3, g4, g5⟩ := deleteConversationById_fields d1 b.branchConversationId
  obtain ⟨k1, k2, k3, k4, k5⟩ :=
    deleteBranchById_fields (deleteConversationById d1 b.branchConversationId) b.id
  rw [e0]
  refine ⟨?_, ?_, ?_, ?_, ?_⟩
  · rw [k1, g1, hm1]
  · rw [k2, g2, f2]
  · rw [k3, g3, f3]
  · rw [k4, g4, f4]
  · rw [k5, g5, f5]

theorem foldl_deleteBranchTarget (bs : List Branch) (d : DB)
    (hnd : (d.messages.map (fun m => m.id)).Nodup) :
    (bs.foldl deleteBranchTarget d).messages = d.messages.filter
      (fun m => !(bs.map (fun b => b.branchConversationId)).contains
        m.conversationId) ∧
    (bs.foldl deleteBranchTarget d).conversations = d.conversations.filter
      (fun c => !(bs.map (fun b => b.branchConversationId)).contains c.id) ∧
    (bs.foldl deleteBranchTarget d).branches = d.branches.filter
      (fun b => !(bs.map (fun b2 => b2.id)).contains b.id) ∧
    (bs.foldl deleteBranchTarget d).apiKeys = d.apiKeys ∧
    (bs.foldl deleteBranchTarget d).nextId = d.nextId := by
  induction bs generalizing d with
  | nil =>
    refine ⟨?_, ?_, ?_, rfl, rfl⟩ <;> simp
  | cons b bs ih =>
    have hstep : (b :: bs).foldl deleteBranchTarget d =
        bs.foldl deleteBranchTarget (deleteBranchTarget d b) := rfl
    rw [hstep]
    obtain ⟨s1, s2, s3, s4, s5⟩ := deleteBranchTarget_spec d b hnd
    have hnd1 : ((deleteBranchTarget d b).messages.map (fun m => m.id)).Nodup := by
      rw [s1]
      exact List.Nodup.sublist ((List.filter_sublist _).map _) hnd
    obtain ⟨i1, i2, i3, i4, i5⟩ := ih (deleteBranchTarget d b) hnd1
    refine ⟨?_, ?_, ?_, ?_, ?_⟩
    · rw [i1, s1, List.filter_filter]
      apply List.filter_congr
      intro x _
      simp only [List.map_cons, List.contains_cons, Bool.not_or]
      rw [Bool.and_comm]
    · rw [i2, s2, List.filter_filter]
      apply List.filter_congr
      intro x _
      simp only [List.map_cons, List.contains_cons, Bool.not_or, bne]
      rw [Bool.and_comm]
    · rw [i3, s3, List.filter_filter]
      apply List.filter_congr
      intro x _
      simp only [List.map_cons, List.contains_cons, Bool.not_or, bne]
      rw [Bool.and_comm]
    · rw [i4, s4]
    · rw [i5, s5]

/-- The conversations reachable through branch records rooted at `cid`:
each such branch's `branchConversationId`. -/
def childCids (db : DB) (cid : Nat) : List Nat :=
  (db.branches.filter (fun b => b.parentConversationId == cid)).map
    (fun b => b.branchConversationId)

theorem deleteConversation_ok {db : DB} {u cid : Nat} {db' : DB}
    (h : deleteConversation db u cid = .ok ((), db'))
    (hndm : (db.messages.map (fun m => m.id)).Nodup)
    (hndb : (db.branches.map (fun b => b.id)).Nodup) :
    ∃ conv, findConv db cid = some conv ∧ conv.userId = u ∧
      db'.messages = db.messages.filter
        (fun m => !(childCids db cid).contains m.conversationId &&
          !(m.conversationId == cid)) ∧
      db'.conversations = db.conversations.filter
        (fun c => c.id != cid && !(childCids db cid).contains c.id) ∧
      db'.branches = db.branches.filter
        (fun b => !(b.parentConversationId == cid)) ∧
      db'.apiKeys = db.apiKeys ∧ db'.nextId = db.nextId := by
  unfold deleteConversation at h
  cases hc : findConv db cid with
  | none => rw [hc] at h; exact absurd h (by simp)
  | some conv =>
    rw [hc] at h
    simp only [] at h
    by_cases hu : conv.userId = u
    · rw [if_pos hu] at h
      refine ⟨conv, rfl, hu, ?_⟩
      simp only [Except.ok.injEq, Prod.mk.injEq] at h
      obtain ⟨-, hdb⟩ := h
      obtain ⟨f1, f2, f3, f4, f5⟩ := foldl_deleteMessageById (messagesOf db cid) db
      set d1 := (messagesOf db cid).foldl (fun d m => deleteMessageById d m.id) db
        with hd1
      have hm1 : d1.messages =
          db.messages.filter (fun m => !(m.conversationId == cid)) := by
        rw [hd1]
        exact deleteCollected_messages db (fun m => m.conversationId == cid) hndm
      have hnd1 : (d1.messages.map (fun m => m.id)).Nodup := by
        rw [hm1]
        exact List.Nodup.sublist ((List.filter_sublist _).map _) hndm
      obtain ⟨g1, g2, g3, g4, g5⟩ := foldl_deleteBranchTarget
        (d1.branches.filter (fun b => b.parentConversationId == cid)) d1 hnd1
      set d2 := (d1.branches.filter
        (fun b => b.parentConversationId == cid)).foldl deleteBranchTarget d1 with hd2
      have hLb : d1.branches.filter (fun b => b.parentConversationId == cid) =
          db.branches.filter (fun b => b.parentConversationId == cid) := by
        rw [f3]
      have hLmap : (d1.branches.filter
          (fun b => b.parentConversationId == cid)).map
            (fun b => b.branchConversationId) = childCids db cid := by
        rw [hLb]
        rfl
      have e1 : db'.messages = d2.messages := by rw [← hdb]; rfl
      have e2 : db'.conversations = d2.conversations.filter
          (fun c => c.id != cid) := by rw [← hdb]; rfl
      have e3 : db'.branches = d2.branches := by rw [← hdb]; rfl
      have e4 : db'.apiKeys = d2.apiKeys := by rw [← hdb]; rfl
      have e5 : db'.nextId = d2.nextId := by rw [← hdb]; rfl
      refine ⟨?_, ?_, ?_, ?_, ?_⟩
      · rw [e1, g1, hLmap, hm1, List.filter_filter]
      · rw [e2, g2, hLmap, f2, List.filter_filter]
      · rw [e3, g3, f3]
        apply List.filter_congr
        intro b hb
        rw [contains_filter_map_ids (fun b2 => b2.id)
          (fun b2 => b2.parentConversationId == cid) db.branches hndb b hb]
      · rw [e4, g4, f4]
      · rw [e5, g5, f5]
    · rw [if_neg hu] at h
      exact absurd h (by simp)

theorem deleteConversation_wf {db : DB} {u cid : Nat} {db' : DB}
    (h : deleteConversation db u cid = .ok ((), db'))
    (hw : WF db) : WF db' := by
  obtain ⟨hwm, hwc, hwb, hwk, hnm, hnc, hnb, hnk⟩ := hw
  obtain ⟨conv, hc, hu, hm, hcv, hb, hk, hn⟩ := deleteConversation_ok h hnm hnb
  refine ⟨?_, ?_, ?_, ?_, ?_, ?_, ?_, ?_⟩
  · intro m' hm'
    rw [hm] at hm'
    rw [hn]
    exact hwm m' (List.mem_filter.mp hm').1
  · intro c' hc'
    rw [hcv] at hc'
    rw [hn]
    exact hwc c' (List.mem_filter.mp hc').1
  · intro b' hb'
    rw [hb] at hb'
    rw [hn]
    exact hwb b' (List.mem_filter.mp hb').1
  · intro k' hk'
    rw [hk] at hk'
    rw [hn]
    exact hwk k' hk'
  · rw [hm]
    exact List.Nodup.sublist ((List.filter_sublist _).map _) hnm
  · rw [hcv]
    exact List.Nodup.sublist ((List.filter_sublist _).map _) hnc
  · rw [hb]
    exact List.Nodup.sublist ((List.filter_sublist _).map _) hnb
  · rw [hk]
    exact hnk

theorem deleteConversation_dense {db : DB} {u cid : Nat} {db' : DB}
    (h : deleteConversation db u cid = .ok ((), db'))
    (hw : WF db) (hd : DenseInv db) : DenseInv db' := by
  obtain ⟨hwm, hwc, hwb, hwk, hnm, hnc, hnb, hnk⟩ := hw
  obtain ⟨conv, hc, hu, hm, hcv, hb, hk, hn⟩ := deleteConversation_ok h hnm hnb
  intro c' hc'
  rw [hcv] at hc'
  obtain ⟨hcmem, hcond⟩ := List.mem_filter.mp hc'
  rw [Bool.and_eq_true] at hcond
  have hne : c'.id ≠ cid := by
    have := hcond.1
    simpa using this
  have hnotchild : ((childCids db cid).contains c'.id) = false := by
    have := hcond.2
    simpa using this
  have hnotchild2 : c'.id ∉ childCids db cid := by
    intro hmem
    have hcontra : (childCids db cid).contains c'.id = true := by
      rw [List.contains_eq_any_beq, List.any_eq_true]
      exact ⟨c'.id, hmem, by simp⟩
    rw [hcontra] at hnotchild
    cases hnotchild
  unfold denseConv convIndices
  have hmsgs : messagesOf db' c'.id = messagesOf db c'.id := by
    unfold messagesOf
    rw [hm, List.filter_filter]
    apply List.filter_congr
    intro m _
    by_cases hmc : m.conversationId = c'.id
    · rw [hmc]
      simp [hnotchild2, hne]
    · simp [hmc]
  rw [hmsgs]
  exact hd c' hcmem

/-! ## Preservation across operation sequences -/

theorem applyOp_preserves {db : DB} (op : Op) (hw : WF db) (hd : DenseInv db) :
    WF (applyOp db op) ∧ DenseInv (applyOp db op) := by
  cases op with
  | addMsg u cid content role p m =>
    cases h : addMessage db u cid content role p m with
    | ok r =>
      simp only [applyOp, h]
      exact ⟨addMessage_wf h hw, addMessage_dense h hd⟩
    | error e =>
      simp only [applyOp, h]
      exact ⟨hw, hd⟩
  | branch u pcid mid name =>
    cases h : createBranch db u pcid mid name with
    | ok r =>
      simp only [applyOp, h]
      exact ⟨createBranch_wf h hw, createBranch_dense h hw hd⟩
    | error e =>
      simp only [applyOp, h]
      exact ⟨hw, hd⟩
  | dup u cid =>
    cases h : duplicateConversation db u cid with
    | ok r =>
      simp only [applyOp, h]
      exact ⟨duplicateConversation_wf h hw, duplicateConversation_dense h hw hd⟩
    | error e =>
      simp only [applyOp, h]
      exact ⟨hw, hd⟩
  | del u cid =>
    cases h : deleteConversation db u cid with
    | ok r =>
      simp only [applyOp, h]
      have h2 : deleteConversation db u cid = .ok ((), r.2) := by
        rw [h]
      exact ⟨deleteConversation_wf h2 hw, deleteConversation_dense h2 hw hd⟩
    | error e =>
      simp only [applyOp, h]
      exact ⟨hw, hd⟩

theorem applyOps_preserves (ops : List Op) (db : DB) (hw : WF db) (hd : DenseInv db) :
    WF (applyOps db ops) ∧ DenseInv (applyOps db ops) := by
  induction ops generalizing db with
  | nil => exact ⟨hw, hd⟩
  | cons op ops ih =>
    have hstep : applyOps db (op :: ops) = applyOps (applyOp db op) ops := rfl
    rw [hstep]
    obtain ⟨hw1, hd1⟩ := applyOp_preserves op hw hd
    exact ih (applyOp db op) hw1 hd1

/-! ## `saveApiKey` characterization -/

theorem foldl_deactivate (ks : List ApiKey) (db : DB) :
    (ks.foldl (fun d k => deactivateApiKeyById d k.id) db).apiKeys =
      db.apiKeys.map (fun k =>
        if (ks.map (fun k2 => k2.id)).contains k.id then
          { k with isActive := false } else k) ∧
    (ks.foldl (fun d k => deactivateApiKeyById d k.id) db).messages = db.messages ∧
    (ks.foldl (fun d k => deactivateApiKeyById d k.id) db).conversations =
      db.conversations ∧
    (ks.foldl (fun d k => deactivateApiKeyById d k.id) db).branches = db.branches ∧
    (ks.foldl (fun d k => deactivateApiKeyById d k.id) db).nextId = db.nextId := by
  induction ks generalizing db with
  | nil =>
    refine ⟨?_, rfl, rfl, rfl, rfl⟩
    simp
  | cons k0 ks ih =>
    have hstep : (k0 :: ks).foldl (fun d k => deactivateApiKeyById d k.id) db =
        ks.foldl (fun d k => deactivateApiKeyById d k.id)
          (deactivateApiKeyById db k0.id) := rfl
    rw [hstep]
    obtain ⟨i1, i2, i3, i4, i5⟩ := ih (deactivateApiKeyById db k0.id)
    have e1 : (deactivateApiKeyById db k0.id).apiKeys =
        db.apiKeys.map (fun k => if k.id == k0.id then
          { k with isActive := false } else k) := rfl
    refine ⟨?_, by rw [i2]; rfl, by rw [i3]; rfl, by rw [i4]; rfl, by rw [i5]; rfl⟩
    rw [i1, e1, List.map_map]
    apply List.map_congr_left
    intro k _
    simp only [Function.comp, List.map_cons, List.contains_cons]
    by_cases h0 : (k.id == k0.id) = true
    · have hid : k.id = k0.id := by simpa using h0
      simp only [if_pos h0]
      by_cases h1 : ((ks.map (fun k2 => k2.id)).contains k.id) = true
      · simp [h0, h1]
      · simp [h0, h1]
    · simp only [if_neg h0]
      by_cases h1 : ((ks.map (fun k2 => k2.id)).contains k.id) = true
      · simp [h0, h1]
      · simp [h0, h1]

theorem saveApiKey_ok (db : DB) (u : Nat) (provider s : String)
    (hnd : (db.apiKeys.map (fun k => k.id)).Nodup) :
    (saveApiKey db u provider s).1 = db.nextId ∧
    (saveApiKey db u provider s).2.apiKeys =
      db.apiKeys.map (fun k =>
        if k.provider == provider && k.userId == u then
          { k with isActive := false } else k) ++
      [{ id := db.nextId, userId := u, provider := provider, apiKey := s,
         isActive := true }] ∧
    (saveApiKey db u provider s).2.messages = db.messages ∧
    (saveApiKey db u provider s).2.conversations = db.conversations ∧
    (saveApiKey db u provider s).2.branches = db.branches ∧
    (saveApiKey db u provider s).2.nextId = db.nextId + 1 := by
  have hff : (db.apiKeys.filter (fun k => k.userId == u)).filter
      (fun k => k.provider == provider) =
      db.apiKeys.filter (fun k => k.provider == provider && k.userId == u) :=
    List.filter_filter _ _
  obtain ⟨d1, d2, d3, d4, d5⟩ := foldl_deactivate
    ((db.apiKeys.filter (fun k => k.userId == u)).filter
      (fun k => k.provider == provider)) db
  set dbd := ((db.apiKeys.filter (fun k => k.userId == u)).filter
    (fun k => k.provider == provider)).foldl
      (fun d k => deactivateApiKeyById d k.id) db with hdbd
  have hkeys : dbd.apiKeys = db.apiKeys.map (fun k =>
      if k.provider == provider && k.userId == u then
        { k with isActive := false } else k) := by
    rw [d1, hff]
    apply List.map_congr_left
    intro k hk
    rw [contains_filter_map_ids (fun k2 => k2.id)
      (fun k2 => k2.provider == provider && k2.userId == u) db.apiKeys hnd k hk]
  have hsave : saveApiKey db u provider s = insertApiKey dbd u provider s true := rfl
  rw [hsave]
  refine ⟨?_, ?_, ?_, ?_, ?_, ?_⟩
  · show dbd.nextId = db.nextId
    rw [d5]
  · show dbd.apiKeys ++ [(⟨dbd.nextId, u, provider, s, true⟩ : ApiKey)] =
      db.apiKeys.map (fun k =>
        if k.provider == provider && k.userId == u then
          { k with isActive := false } else k) ++
      [(⟨db.nextId, u, provider, s, true⟩ : ApiKey)]
    rw [hkeys, d5]
  · show dbd.messages = db.messages
    rw [d2]
  · show dbd.conversations = db.conversations
    rw [d3]
  · show dbd.branches = db.branches
    rw [d4]
  · show dbd.nextId + 1 = db.nextId + 1
    rw [d5]

/-- At most one active credential per `(userId, provider)` pair: no two
distinct stored keys share the pair while both are active. -/
def AtMostOneActive (db : DB) : Prop :=
  List.Pairwise (fun k1 k2 => ¬(k1.userId = k2.userId ∧ k1.provider = k2.provider ∧
    k1.isActive = true ∧ k2.isActive = true)) db.apiKeys

instance (db : DB) : Decidable (AtMostOneActive db) := by
  unfold AtMostOneActive; infer_instance

theorem deactFun_userId (provider : String) (u : Nat) (k : ApiKey) :
    (if k.provider == provider && k.userId == u then
      { k with isActive := false } else k).userId = k.userId := by
  split <;> rfl

theorem deactFun_provider (provider : String) (u : Nat) (k : ApiKey) :
    (if k.provider == provider && k.userId == u then
      { k with isActive := false } else k).provider = k.provider := by
  split <;> rfl

theorem deactFun_id (provider : String) (u : Nat) (k : ApiKey) :
    (if k.provider == provider && k.userId == u then
      { k with isActive := false } else k).id = k.id := by
  split <;> rfl

theorem deactFun_active {provider : String} {u : Nat} {k : ApiKey}
    (h : (if k.provider == provider && k.userId == u then
      { k with isActive := false } else k).isActive = true) :
    k.isActive = true ∧ (k.provider == provider && k.userId == u) = false := by
  split at h
  · cases h
  · next hcond =>
      refine ⟨h, ?_⟩
      simpa using hcond

theorem saveApiKey_atMostOne (db : DB) (u : Nat) (provider s : String)
    (hnd : (db.apiKeys.map (fun k => k.id)).Nodup)
    (ha : AtMostOneActive db) : AtMostOneActive (saveApiKey db u provider s).2 := by
  obtain ⟨-, hkeys, -, -, -, -⟩ := saveApiKey_ok db u provider s hnd
  unfold AtMostOneActive at ha ⊢
  rw [hkeys, List.pairwise_append]
  refine ⟨?_, ?_, ?_⟩
  · rw [List.pairwise_map]
    refine ha.imp ?_
    intro a b hab hcon
    apply hab
    obtain ⟨h1, h2, h3, h4⟩ := hcon
    obtain ⟨ha3, -⟩ := deactFun_active h3
    obtain ⟨ha4, -⟩ := deactFun_active h4
    rw [deactFun_userId, deactFun_userId] at h1
    rw [deactFun_provider, deactFun_provider] at h2
    exact ⟨h1, h2, ha3, ha4⟩
  · exact List.pairwise_singleton _ _
  · intro a ha2 b hb2
    simp only [List.mem_singleton] at hb2
    subst hb2
    obtain ⟨a0, ha0, ha0e⟩ := List.mem_map.mp ha2
    intro hcon
    obtain ⟨h1, h2, h3, -⟩ := hcon
    rw [← ha0e] at h1 h2 h3
    obtain ⟨-, hcond⟩ := deactFun_active h3
    rw [deactFun_userId] at h1
    rw [deactFun_provider] at h2
    simp only [] at h1 h2
    rw [Bool.and_eq_false_iff] at hcond
    rcases hcond with hc | hc
    · rw [beq_eq_false_iff_ne] at hc
      exact hc h2
    · rw [beq_eq_false_iff_ne] at hc
      exact hc h1

theorem deleteApiKey_ok {db : DB} {u kid : Nat} {db' : DB}
    (h : deleteApiKey db u kid = .ok ((), db')) :
    db'.apiKeys = db.apiKeys.filter (fun k => k.id != kid) ∧
    db'.messages = db.messages ∧ db'.conversations = db.conversations ∧
    db'.branches = db.branches ∧ db'.nextId = db.nextId := by
  unfold deleteApiKey at h
  cases hf : db.apiKeys.find? (fun k => k.id == kid) with
  | none => rw [hf] at h; exact absurd h (by simp)
  | some k0 =>
    rw [hf] at h
    simp only [] at h
    by_cases hu : k0.userId = u
    · rw [if_pos hu] at h
      simp only [Except.ok.injEq, Prod.mk.injEq] at h
      obtain ⟨-, hdb⟩ := h
      rw [← hdb]
      exact ⟨rfl, rfl, rfl, rfl, rfl⟩
    · rw [if_neg hu] at h
      exact absurd h (by simp)

theorem saveApiKey_wf (db : DB) (u : Nat) (provider s : String) (hw : WF db) :
    WF (saveApiKey db u provider s).2 := by
  obtain ⟨hwm, hwc, hwb, hwk, hnm, hnc, hnb, hnk⟩ := hw
  obtain ⟨-, hkeys, hmsg, hconv, hbr, hnext⟩ := saveApiKey_ok db u provider s hnk
  refine ⟨?_, ?_, ?_, ?_, ?_, ?_, ?_, ?_⟩
  · intro m hm
    rw [hmsg] at hm
    rw [hnext]
    have := hwm m hm
    omega
  · intro c hc
    rw [hconv] at hc
    rw [hnext]
    have := hwc c hc
    omega
  · intro b hb
    rw [hbr] at hb
    rw [hnext]
    have := hwb b hb
    omega
  · intro k hk
    rw [hkeys, List.mem_append] at hk
    rw [hnext]
    rcases hk with hk | hk
    · obtain ⟨k0, hk0, hk0e⟩ := List.mem_map.mp hk
      have hid : k.id = k0.id := by rw [← hk0e]; exact deactFun_id provider u k0
      have := hwk k0 hk0
      omega
    · simp only [List.mem_singleton] at hk
      subst hk
      simp only []
      omega
  · rw [hmsg]; exact hnm
  · rw [hconv]; exact hnc
  · rw [hbr]; exact hnb
  · rw [hkeys, List.map_append, List.map_map]
    have hids : db.apiKeys.map ((fun k => k.id) ∘ (fun k =>
        if k.provider == provider && k.userId == u then
          { k with isActive := false } else k)) = db.apiKeys.map (fun k => k.id) := by
      apply List.map_congr_left
      intro k _
      exact deactFun_id provider u k
    rw [hids]
    simp only [List.map_cons, List.map_nil]
    exact nodup_append_fresh hnk (fun x hx => by
      obtain ⟨k0, hk0, hk0e⟩ := List.mem_map.mp hx
      rw [← hk0e]
      exact hwk k0 hk0)

theorem deleteApiKey_wf {db : DB} {u kid : Nat} {db' : DB}
    (h : deleteApiKey db u kid = .ok ((), db')) (hw : WF db) : WF db' := by
  obtain ⟨hwm, hwc, hwb, hwk, hnm, hnc, hnb, hnk⟩ := hw
  obtain ⟨hkeys, hmsg, hconv, hbr, hnext⟩ := deleteApiKey_ok h
  refine ⟨?_, ?_, ?_, ?_, ?_, ?_, ?_, ?_⟩
  · intro m hm
    rw [hmsg] at hm; rw [hnext]; exact hwm m hm
  · intro c hc
    rw [hconv] at hc; rw [hnext]; exact hwc c hc
  · intro b hb
    rw [hbr] at hb; rw [hnext]; exact hwb b hb
  · intro k hk
    rw [hkeys] at hk; rw [hnext]; exact hwk k (List.mem_filter.mp hk).1
  · rw [hmsg]; exact hnm
  · rw [hconv]; exact hnc
  · rw [hbr]; exact hnb
  · rw [hkeys]
    exact List.Nodup.sublist ((List.filter_sublist _).map _) hnk

theorem applyKeyOps_preserves (ops : List KeyOp) (db : DB)
    (hw : WF db) (ha : AtMostOneActive db) :
    WF (applyKeyOps db ops) ∧ AtMostOneActive (applyKeyOps db ops) := by
  induction ops generalizing db with
  | nil => exact ⟨hw, ha⟩
  | cons op ops ih =>
    have hstep : applyKeyOps db (op :: ops) = applyKeyOps (applyKeyOp db op) ops := rfl
    rw [hstep]
    have hpres : WF (applyKeyOp db op) ∧ AtMostOneActive (applyKeyOp db op) := by
      cases op with
      | save u p s =>
        exact ⟨saveApiKey_wf db u p s hw,
          saveApiKey_atMostOne db u p s hw.2.2.2.2.2.2.2 ha⟩
      | del u kid =>
        cases h : deleteApiKey db u kid with
        | ok r =>
          simp only [applyKeyOp, h]
          have h2 : deleteApiKey db u kid = .ok ((), r.2) := by rw [h]
          obtain ⟨hkeys, -, -, -, -⟩ := deleteApiKey_ok h2
          refine ⟨deleteApiKey_wf h2 hw, ?_⟩
          unfold AtMostOneActive at ha ⊢
          rw [hkeys]
          exact ha.sublist (List.filter_sublist _)
        | error e =>
          simp only [applyKeyOp, h]
          exact ⟨hw, ha⟩
    exact ih (applyKeyOp db op) hpres.1 hpres.2

/-! ## Helpers for the claim theorems -/

/-- The title of a conversation, read back from the store. -/
def titleOf (db : DB) (cid : Nat) : Option String :=
  (findConv db cid).map (fun c => c.title)

/-- The adapter-level failures: non-2xx status or unusable 2xx body. -/
def isUpstreamErr : Err → Bool
  | .apiError _ _ => true
  | .googleApiError _ _ => true
  | .badResponseBody _ => true
  | _ => false

theorem findConv_self {db : DB} {c : Conversation}
    (hnd : (db.conversations.map (fun c => c.id)).Nodup)
    (hc : c ∈ db.conversations) : findConv db c.id = some c := by
  unfold findConv
  cases hf : db.conversations.find? (fun c2 => c2.id == c.id) with
  | none =>
    have := List.find?_eq_none.mp hf c hc
    simp at this
  | some c' =>
    have h1 := List.mem_of_find?_eq_some hf
    have h2 := List.find?_some hf
    simp only [beq_iff_eq] at h2
    have : c' = c := List.inj_on_of_nodup_map hnd h1 hc h2
    rw [this]

theorem find?_map_idPres (g : Conversation → Conversation)
    (hg : ∀ c, (g c).id = c.id) (l : List Conversation) (i : Nat) :
    (l.map g).find? (fun c => c.id == i) =
      (l.find? (fun c => c.id == i)).map g := by
  induction l with
  | nil => rfl
  | cons c t ih =>
    simp only [List.map_cons, List.find?_cons]
    rw [hg c]
    by_cases h : (c.id == i) = true
    · simp [h]
    · simp only [Bool.not_eq_true] at h
      simp [h, ih]

theorem addMessage_succeeds {db : DB} {u cid : Nat} (content role : String)
    (p m : Option String) {conv : Conversation}
    (hc : findConv db cid = some conv) (hu : conv.userId = u) :
    ∃ mid db', addMessage db u cid content role p m = .ok (mid, db') := by
  unfold addMessage
  rw [hc]
  simp only []
  rw [if_pos hu]
  exact ⟨_, _, rfl⟩

/-! ## The claims -/

/-- The store used for claim C1: one conversation owned by user 7 holding
one prior user message, and an active OpenAI credential. -/
def dbC1 : DB :=
  { conversations := [⟨0, 7, "Chat", none, none⟩],
    messages := [⟨1, 0, "u0", "user", none, none, 0⟩],
    branches := [],
    apiKeys := [⟨2, 7, "openai", "sk-test", true⟩],
    nextId := 3 }

/-- C1: FALSIFIED (code bug).  `sendMessage` appends the user message, reads
the history back (which already contains it), and then pushes the same
message again (ai.ts, lines 49–70), so the history handed to the provider
adapter contains the just-sent user message twice.  Evaluated at `dbC1` with
message `"hi"`: the upstream history is
`[("user","u0"), ("user","hi"), ("user","hi")]`, where the contract of the
claim requires `[("user","u0"), ("user","hi")]` — the new user message
appears twice, violating "each message appearing exactly once". -/
theorem c1_upstream_history_duplicates_user_message :
    (sendMessagePrepared dbC1 7 0 "hi" "openai").toOption.map (fun r => r.2.1) =
      some [("user", "u0"), ("user", "hi"), ("user", "hi")] ∧
    List.count ("user", "hi")
      (((sendMessagePrepared dbC1 7 0 "hi" "openai").toOption.map
        (fun r => r.2.1)).getD []) = 2 := by
  exact ⟨rfl, rfl⟩

/-- C8: for every call to `sendMessage` where no active credential exists for
the requested provider, the call fails with the no-credential error
(`No API key found for provider: ...`) and the store — in particular the
conversation's message log — is completely unchanged. -/
theorem c8_no_credential_no_append {db : DB} {u cid : Nat}
    {message provider model : String} {net : Net}
    (hk : getApiKey db u provider = none) :
    sendMessage db u cid message provider model net =
      (.error (.noApiKey provider), db) := by
  unfold sendMessage sendMessagePrepared
  rw [hk]

/-- Witness for C8 at a concrete store with a conversation but no
credential for the requested provider. -/
theorem c8_witness :
    sendMessage
      { conversations := [⟨0, 7, "Chat", none, none⟩], messages := [],
        branches := [], apiKeys := [⟨1, 7, "google", "sk", true⟩], nextId := 2 }
      7 0 "hi" "openai" "gpt-4o-mini" (fun _ => .ok "reply") =
      (.error (.noApiKey "openai"),
        { conversations := [⟨0, 7, "Chat", none, none⟩], messages := [],
          branches := [], apiKeys := [⟨1, 7, "google", "sk", true⟩], nextId := 2 }) :=
  c8_no_credential_no_append rfl

/-- The network used for claim C9: every request fails with HTTP 401.
Under the claim's expectation an unknown provider must never reach it. -/
def netC9 : Net := fun _ => .httpErr 401 "unauthorized"

/-- The store used for claim C9: one conversation of user 7 and an active
credential stored under the unrecognized provider string `"anthropic"`. -/
def dbC9 : DB :=
  { conversations := [⟨0, 7, "Chat", none, none⟩],
    messages := [],
    branches := [],
    apiKeys := [⟨1, 7, "anthropic", "sk-test", true⟩],
    nextId := 2 }

/-- C9: FALSIFIED for `testApiKey` (code bug).  The spec requires a provider
identifier outside the registry {openai, google, groq, deepseek} to fail
with `UnsupportedProvider` — as a structured failure for `testApiKey`.  The
`sendMessage` path does throw `Unsupported provider: ...` (wrapped by its
catch block), as the second conjunct shows.  But `testApiKey`'s provider
conditional (ai.ts, lines 187–196) has no `else` branch: for
`provider = "anthropic"` it performs no upstream call at all and returns
`{success: true, message: "API key is valid"}`, even though the network
would refuse every request — contradicting both the claim and the
function's own success message. -/
theorem c9_unsupported_provider_testApiKey_success :
    testApiKey "anthropic" "sk-test" "claude-3" netC9 =
      { success := true, message := "API key is valid" } ∧
    (sendMessage dbC9 7 0 "hi" "anthropic" "claude-3" netC9).1 =
      .error (.requestFailed "anthropic" (.unsupportedProvider "anthropic")) := by
  exact ⟨rfl, rfl⟩

/-- C7: when the provider adapter call fails (any upstream outcome that is
not a well-formed 2xx reply — non-2xx status or unusable body), `sendMessage`
returns the failure wrapped in `Failed to get response from {provider}`
(`Err.requestFailed`) carrying an adapter-level error, and the resulting
store contains exactly the messages of the initial store plus the one
just-appended user message: the user message remains (no rollback) and no
assistant-role message is persisted. -/
theorem c7_upstream_failure_preserves_user_message
    {db : DB} {u cid : Nat} {message provider model : String} {net : Net}
    {key : ApiKey} {conv : Conversation}
    (hk : getApiKey db u provider = some key)
    (hc : findConv db cid = some conv) (hu : conv.userId = u)
    (hp : provider = "openai" ∨ provider = "groq" ∨ provider = "deepseek" ∨
      provider = "google")
    (hfail : ∀ h r, net h ≠ NetResult.ok r) :
    ∃ e db1,
      sendMessage db u cid message provider model net =
        (.error (.requestFailed provider e), db1) ∧
      isUpstreamErr e = true ∧
      db1.messages = db.messages ++
        [{ id := db.nextId, conversationId := cid, content := message, role := "user",
           provider := none, model := none,
           messageIndex := (messagesOf db cid).length }] := by
  obtain ⟨mid, db1, haddm⟩ :=
    addMessage_succeeds message "user" none none hc hu
  obtain ⟨conv2, -, -, -, hmsg1, -, -, -, -⟩ := addMessage_ok haddm
  have hprep : sendMessagePrepared db u cid message provider =
      .ok (key.apiKey, buildApiMessages (messagesSortedOf db1 cid) message, db1) := by
    unfold sendMessagePrepared
    rw [hk]
    simp only []
    rw [haddm]
  have hdisp : ∃ e, dispatchProvider net provider key.apiKey model
      (buildApiMessages (messagesSortedOf db1 cid) message) = .error e ∧
      isUpstreamErr e = true := by
    rcases hp with rfl | rfl | rfl | rfl
    · cases hnet : net (buildApiMessages (messagesSortedOf db1 cid) message) with
      | ok r => exact absurd hnet (hfail _ r)
      | httpErr s b =>
        refine ⟨.apiError s b, ?_, rfl⟩
        show callOpenAICompatibleAPI net (baseURLOf "openai") key.apiKey model
          (buildApiMessages (messagesSortedOf db1 cid) message) = _
        unfold callOpenAICompatibleAPI
        rw [hnet]
      | badBody d =>
        refine ⟨.badResponseBody d, ?_, rfl⟩
        show callOpenAICompatibleAPI net (baseURLOf "openai") key.apiKey model
          (buildApiMessages (messagesSortedOf db1 cid) message) = _
        unfold callOpenAICompatibleAPI
        rw [hnet]
    · cases hnet : net (buildApiMessages (messagesSortedOf db1 cid) message) with
      | ok r => exact absurd hnet (hfail _ r)
      | httpErr s b =>
        refine ⟨.apiError s b, ?_, rfl⟩
        show callOpenAICompatibleAPI net (baseURLOf "groq") key.apiKey model
          (buildApiMessages (messagesSortedOf db1 cid) message) = _
        unfold callOpenAICompatibleAPI
        rw [hnet]
      | badBody d =>
        refine ⟨.badResponseBody d, ?_, rfl⟩
        show callOpenAICompatibleAPI net (baseURLOf "groq") key.apiKey model
          (buildApiMessages (messagesSortedOf db1 cid) message) = _
        unfold callOpenAICompatibleAPI
        rw [hnet]
    · cases hnet : net (buildApiMessages (messagesSortedOf db1 cid) message) with
      | ok r => exact absurd hnet (hfail _ r)
      | httpErr s b =>
        refine ⟨.apiError s b, ?_, rfl⟩
        show callOpenAICompatibleAPI net (baseURLOf "deepseek") key.apiKey model
          (buildApiMessages (messagesSortedOf db1 cid) message) = _
        unfold callOpenAICompatibleAPI
        rw [hnet]
      | badBody d =>
        refine ⟨.badResponseBody d, ?_, rfl⟩
        show callOpenAICompatibleAPI net (baseURLOf "deepseek") key.apiKey model
          (buildApiMessages (messagesSortedOf db1 cid) message) = _
        unfold callOpenAICompatibleAPI
        rw [hnet]
    · cases hnet : net (googleWireContents
        (buildApiMessages (messagesSortedOf db1 cid) message)) with
      | ok r => exact absurd hnet (hfail _ r)
      | httpErr s b =>
        refine ⟨.googleApiError s b, ?_, rfl⟩
        show callGoogleAPI net key.apiKey model
          (buildApiMessages (messagesSortedOf db1 cid) message) = _
        unfold callGoogleAPI
        rw [hnet]
      | badBody d =>
        refine ⟨.badResponseBody d, ?_, rfl⟩
        show callGoogleAPI net key.apiKey model
          (buildApiMessages (messagesSortedOf db1 cid) message) = _
        unfold callGoogleAPI
        rw [hnet]
  obtain ⟨e, hde, hupe⟩ := hdisp
  refine ⟨e, db1, ?_, hupe, by rw [hmsg1]⟩
  unfold sendMessage
  rw [hprep]
  simp only []
  rw [hde]

/-- The store used in the witness of C7. -/
def dbC7 : DB :=
  { conversations := [⟨0, 7, "Chat", none, none⟩], messages := [],
    branches := [], apiKeys := [⟨1, 7, "openai", "sk", true⟩], nextId := 2 }

/-- An upstream that refuses every request with HTTP 500. -/
def netC7 : Net := fun _ => .httpErr 500 "server error"

/-- Witness for C7: a concrete failing dispatch leaves exactly the one new
user message behind and surfaces a wrapped upstream error. -/
theorem c7_witness :
    ∃ e db1,
      sendMessage dbC7 7 0 "hi" "openai" "gpt-4o-mini" netC7 =
        (.error (.requestFailed "openai" e), db1) ∧
      isUpstreamErr e = true ∧
      db1.messages = dbC7.messages ++ [⟨2, 0, "hi", "user", none, none, 0⟩] :=
  c7_upstream_failure_preserves_user_message rfl rfl rfl (Or.inl rfl)
    (fun _ r h2 => NetResult.noConfusion h2)

/-- C10: `saveApiKey` accepts arbitrary provider strings, so an active
credential can exist under a provider outside the registry.  For such a
credential, `sendMessage` passes the credential check, appends the user
message, and only then hits the provider conditional: the call fails with
the wrapped `Unsupported provider` error, yet exactly one new user-role
message remains in the log and no assistant message is persisted. -/
theorem c10_unsupported_provider_message_already_appended
    {db : DB} {u cid : Nat} {message provider model : String} {net : Net}
    {key : ApiKey} {conv : Conversation}
    (hk : getApiKey db u provider = some key)
    (hc : findConv db cid = some conv) (hu : conv.userId = u)
    (hp1 : provider ≠ "openai") (hp2 : provider ≠ "groq")
    (hp3 : provider ≠ "deepseek") (hp4 : provider ≠ "google") :
    ∃ db1,
      sendMessage db u cid message provider model net =
        (.error (.requestFailed provider (.unsupportedProvider provider)), db1) ∧
      db1.messages = db.messages ++
        [{ id := db.nextId, conversationId := cid, content := message, role := "user",
           provider := none, model := none,
           messageIndex := (messagesOf db cid).length }] := by
  obtain ⟨mid, db1, haddm⟩ :=
    addMessage_succeeds message "user" none none hc hu
  obtain ⟨conv2, -, -, -, hmsg1, -, -, -, -⟩ := addMessage_ok haddm
  have hprep : sendMessagePrepared db u cid message provider =
      .ok (key.apiKey, buildApiMessages (messagesSortedOf db1 cid) message, db1) := by
    unfold sendMessagePrepared
    rw [hk]
    simp only []
    rw [haddm]
  have hb1 : (provider == "openai") = false := beq_eq_false_iff_ne.mpr hp1
  have hb2 : (provider == "groq") = false := beq_eq_false_iff_ne.mpr hp2
  have hb3 : (provider == "deepseek") = false := beq_eq_false_iff_ne.mpr hp3
  have hb4 : (provider == "google") = false := beq_eq_false_iff_ne.mpr hp4
  have hdisp : dispatchProvider net provider key.apiKey model
      (buildApiMessages (messagesSortedOf db1 cid) message) =
      .error (.unsupportedProvider provider) := by
    unfold dispatchProvider
    rw [hb1, hb2, hb3, hb4]
    simp
  refine ⟨db1, ?_, by rw [hmsg1]⟩
  unfold sendMessage
  rw [hprep]
  simp only []
  rw [hdisp]

/-- The store of C10's witness before the credential is saved. -/
def dbC10base : DB :=
  { conversations := [⟨0, 7, "Chat", none, none⟩], messages := [],
    branches := [], apiKeys := [], nextId := 1 }

/-- The store of C10's witness: obtained by actually running `saveApiKey`
with the out-of-registry provider string `"anthropic"`, demonstrating that
such credentials are reachable. -/
def dbC10 : DB := (saveApiKey dbC10base 7 "anthropic" "sk-test").2

/-- A healthy upstream: C10's failure comes purely from provider
validation, not from the network. -/
def netC10 : Net := fun _ => .ok "reply"

/-- Witness for C10 at the reachable store `dbC10`. -/
theorem c10_witness :
    ∃ db1,
      sendMessage dbC10 7 0 "hi" "anthropic" "claude-3" netC10 =
        (.error (.requestFailed "anthropic" (.unsupportedProvider "anthropic")), db1) ∧
      db1.messages = dbC10.messages ++ [⟨2, 0, "hi", "user", none, none, 0⟩] :=
  c10_unsupported_provider_message_already_appended rfl rfl rfl
    (by decide) (by decide) (by decide) (by decide)

/-- C2: a successful `createBranch` produces a branch conversation whose
messages are exactly the parent's messages with `messageIndex` at most the
branch point's index, in ascending `messageIndex` order, with identical
`content, role, provider, model, messageIndex` (`msgData`) but fresh
identities; the parent conversation record and the parent's messages are
unchanged. -/
theorem c2_createBranch_exact_prefix_copy
    {db : DB} {u pcid mid : Nat} {name : String} {bid bcid : Nat} {db' : DB}
    {bm : Message}
    (hw : WF db)
    (hm : findMessage db mid = some bm)
    (h : createBranch db u pcid mid name = .ok ((bid, bcid), db')) :
    (messagesOf db' bcid).map msgData =
      (sortByIndex ((messagesOf db pcid).filter
        (fun m => m.messageIndex ≤ bm.messageIndex))).map msgData ∧
    List.Sorted (· ≤ ·) ((messagesOf db' bcid).map (fun m => m.messageIndex)) ∧
    (∀ m' ∈ messagesOf db' bcid, ∀ m0 ∈ db.messages, m'.id ≠ m0.id) ∧
    messagesOf db' pcid = messagesOf db pcid ∧
    findConv db' pcid = findConv db pcid := by
  obtain ⟨parent, bm2, hp, hu, hm2, hbc, hbcid, hbid, hmsg, hconv, hbr, hak, hnext⟩ :=
    createBranch_ok h
  obtain ⟨hwm, hwc, hwb, hwk, hnm, hnc, hnb, hnk⟩ := hw
  have hbm : bm2 = bm := Option.some.inj (hm2.symm.trans hm)
  subst hbm
  subst hbcid
  obtain ⟨hpmem, hpid⟩ := mem_findConv hp
  have hmessB : messagesOf db' db.nextId =
      copyRecords db.nextId (db.nextId + 1) (toCopy db pcid bm2) := by
    have h1 := messagesOf_append hmsg db.nextId
    rw [copyRecords_filter_self] at h1
    have hnil : messagesOf db db.nextId = [] :=
      messagesOf_ge_nil (fun m hm3 => (hwm m hm3).2) (Nat.le_refl _)
    rw [hnil, List.nil_append] at h1
    exact h1
  refine ⟨?_, ?_, ?_, ?_, ?_⟩
  · rw [hmessB, copyRecords_map_data]
    rfl
  · rw [hmessB, copyRecords_map_idx]
    have hs : List.Sorted byIndex (toCopy db pcid bm2) :=
      List.sorted_insertionSort byIndex _
    exact List.pairwise_map.mpr hs
  · intro m' hm' m0 hm0
    rw [hmessB] at hm'
    obtain ⟨-, hge, -⟩ := mem_copyRecords hm'
    have := (hwm m0 hm0).1
    omega
  · have h1 := messagesOf_append hmsg pcid
    have hne : pcid ≠ db.nextId := by
      have := hwc parent hpmem
      omega
    rw [copyRecords_filter_ne hne, List.append_nil] at h1
    exact h1
  · unfold findConv
    rw [hconv, List.find?_append]
    unfold findConv at hp
    rw [hp]
    rfl

/-- The parent store of C2's witness: one conversation with three messages
at indices 0, 1, 2. -/
def dbC2 : DB :=
  { conversations := [⟨0, 7, "P", none, none⟩],
    messages := [⟨1, 0, "a", "user", none, none, 0⟩,
      ⟨2, 0, "b", "assistant", some "openai", some "gpt-4o-mini", 1⟩,
      ⟨3, 0, "c", "user", none, none, 2⟩],
    branches := [], apiKeys := [], nextId := 4 }

/-- The store after branching `dbC2` at the message with id 2 (index 1). -/
def dbC2r : DB :=
  match createBranch dbC2 7 0 2 "alt" with
  | .ok r => r.2
  | .error _ => dbC2

/-- Witness for C2: branching the three-message conversation at index 1
copies exactly the two messages with indices 0 and 1. -/
theorem c2_witness :
    (messagesOf dbC2r 4).map msgData =
      (sortByIndex ((messagesOf dbC2 0).filter
        (fun m => m.messageIndex ≤ 1))).map msgData ∧
    List.Sorted (· ≤ ·) ((messagesOf dbC2r 4).map (fun m => m.messageIndex)) ∧
    (∀ m' ∈ messagesOf dbC2r 4, ∀ m0 ∈ dbC2.messages, m'.id ≠ m0.id) ∧
    messagesOf dbC2r 0 = messagesOf dbC2 0 ∧
    findConv dbC2r 0 = findConv dbC2 0 :=
  c2_createBranch_exact_prefix_copy
    (by decide)
    (show findMessage dbC2 2 = some
      ⟨2, 0, "b", "assistant", some "openai", some "gpt-4o-mini", 1⟩ from rfl)
    (show createBranch dbC2 7 0 2 "alt" = .ok ((7, 4), dbC2r) from rfl)

/-- C3: starting from any well-formed store whose conversations all have
dense message indices, after any sequence of `addMessage`, `createBranch`,
`duplicateConversation` and `deleteConversation` operations, every
conversation's `messageIndex` values, sorted ascending, are exactly
`0..n-1` for `n` its message count — no gaps, no duplicates, starting
at 0. -/
theorem c3_messageIndex_density (db : DB) (hw : WF db) (hd : DenseInv db)
    (ops : List Op) : DenseInv (applyOps db ops) :=
  (applyOps_preserves ops db hw hd).2

/-- The initial store of C3's witness. -/
def dbC3 : DB :=
  { conversations := [⟨0, 7, "New Conversation", none, none⟩],
    messages := [], branches := [], apiKeys := [], nextId := 1 }

/-- The operation sequence of C3's witness, exercising all four
operations: two appends, a branch at the assistant message, another
append, a duplication and a cascading delete. -/
def opsC3 : List Op :=
  [.addMsg 7 0 "hello" "user" none none,
   .addMsg 7 0 "hi there" "assistant" (some "openai") (some "gpt-4o-mini"),
   .branch 7 0 2 "alt",
   .addMsg 7 0 "more" "user" none none,
   .dup 7 0,
   .del 7 0]

/-- Witness for C3 at a concrete store and operation sequence. -/
theorem c3_witness : WF dbC3 ∧ DenseInv dbC3 ∧ DenseInv (applyOps dbC3 opsC3) :=
  ⟨by decide, by decide,
   c3_messageIndex_density dbC3 (by decide) (by decide) opsC3⟩

/-- C5: a successful `deleteConversation(userId, cid)` leaves exactly:
the messages whose conversation is neither `cid` nor a direct branch
target of `cid`; the conversations other than `cid` and its direct branch
targets; the branch records not rooted at `cid`; and the credential table
untouched.  In particular all of the conversation's own messages, every
branch rooted at it together with the branch's target conversation and
that conversation's messages are deleted, siblings and unrelated records
are unaffected, and branch records rooted at the deleted child
conversations (grandchild branches) survive. -/
theorem c5_deleteConversation_cascade
    {db : DB} {u cid : Nat} {db' : DB}
    (hw : WF db)
    (h : deleteConversation db u cid = .ok ((), db')) :
    db'.messages = db.messages.filter
      (fun m => !(childCids db cid).contains m.conversationId &&
        !(m.conversationId == cid)) ∧
    db'.conversations = db.conversations.filter
      (fun c => c.id != cid && !(childCids db cid).contains c.id) ∧
    db'.branches = db.branches.filter
      (fun b => !(b.parentConversationId == cid)) ∧
    db'.apiKeys = db.apiKeys ∧
    (∀ b ∈ db.branches, b.parentConversationId ≠ cid → b ∈ db'.branches) := by
  obtain ⟨conv, hc, hu, h1, h2, h3, h4, h5⟩ :=
    deleteConversation_ok h hw.2.2.2.2.1 hw.2.2.2.2.2.2.1
  refine ⟨h1, h2, h3, h4, ?_⟩
  intro b hb hbp
  rw [h3, List.mem_filter]
  exact ⟨hb, by simp [hbp]⟩

/-- The store of C5's witness: conversation 0 with one message; a branch
of 0 targeting conversation 1 (one message); a grandchild branch of 1
targeting conversation 2 (one message); and an unrelated sibling
conversation 3 (one message). -/
def dbC5 : DB :=
  { conversations := [⟨0, 7, "A", none, none⟩, ⟨1, 7, "A - alt", none, some 10⟩,
      ⟨2, 7, "A - alt - gg", none, some 11⟩, ⟨3, 7, "S", none, none⟩],
    messages := [⟨10, 0, "m0", "user", none, none, 0⟩,
      ⟨11, 1, "c0", "user", none, none, 0⟩,
      ⟨12, 2, "g0", "user", none, none, 0⟩,
      ⟨13, 3, "s0", "user", none, none, 0⟩],
    branches := [⟨20, 7, 0, 1, 10, "alt", true⟩, ⟨21, 7, 1, 2, 11, "gg", true⟩],
    apiKeys := [], nextId := 22 }

/-- The store after deleting conversation 0 of `dbC5`. -/
def dbC5r : DB :=
  match deleteConversation dbC5 7 0 with
  | .ok r => r.2
  | .error _ => dbC5

/-- Witness for C5: deleting conversation 0 removes its message, its child
conversation 1 with that conversation's message and the branch record, but
keeps the grandchild branch record, the grandchild conversation 2 and the
sibling conversation 3. -/
theorem c5_witness :
    dbC5r.messages = dbC5.messages.filter
      (fun m => !(childCids dbC5 0).contains m.conversationId &&
        !(m.conversationId == 0)) ∧
    dbC5r.conversations = dbC5.conversations.filter
      (fun c => c.id != 0 && !(childCids dbC5 0).contains c.id) ∧
    dbC5r.branches = dbC5.branches.filter
      (fun b => !(b.parentConversationId == 0)) ∧
    dbC5r.apiKeys = dbC5.apiKeys ∧
    (∀ b ∈ dbC5.branches, b.parentConversationId ≠ 0 → b ∈ dbC5r.branches) :=
  c5_deleteConversation_cascade (by decide)
    (show deleteConversation dbC5 7 0 = .ok ((), dbC5r) from rfl)

/-- C6: at most one active credential exists per `(userId, provider)` pair
after any sequence of `saveApiKey`/`deleteApiKey` operations on a
well-formed store satisfying the invariant; and one `saveApiKey` call
produces exactly the old table with every credential of that same
`(userId, provider)` pair flipped to inactive (all other credentials
untouched, prior keys still stored) plus the one new active credential. -/
theorem c6_single_active_credential (db : DB) (hw : WF db)
    (ha : AtMostOneActive db) :
    (∀ ops : List KeyOp, AtMostOneActive (applyKeyOps db ops)) ∧
    (∀ u provider s,
      (saveApiKey db u provider s).2.apiKeys =
        db.apiKeys.map (fun k =>
          if k.provider == provider && k.userId == u then
            { k with isActive := false } else k) ++
        [{ id := db.nextId, userId := u, provider := provider, apiKey := s,
           isActive := true }]) :=
  ⟨fun ops => (applyKeyOps_preserves ops db hw ha).2,
   fun u provider s => (saveApiKey_ok db u provider s hw.2.2.2.2.2.2.2).2.1⟩

/-- The store of C6's witness: three active credentials over two users and
two providers. -/
def dbC6 : DB :=
  { conversations := [], messages := [], branches := [],
    apiKeys := [⟨0, 7, "openai", "k1", true⟩, ⟨1, 8, "openai", "k2", true⟩,
      ⟨2, 7, "google", "k3", true⟩],
    nextId := 3 }

/-- The operation sequence of C6's witness. -/
def opsC6 : List KeyOp :=
  [.save 7 "openai" "k4", .del 8 1, .save 7 "openai" "k5"]

/-- Witness for C6 at a concrete store and operation sequence. -/
theorem c6_witness :
    AtMostOneActive (applyKeyOps dbC6 opsC6) ∧
    (saveApiKey dbC6 7 "openai" "k9").2.apiKeys =
      dbC6.apiKeys.map (fun k =>
        if k.provider == "openai" && k.userId == 7 then
          { k with isActive := false } else k) ++
      [{ id := 3, userId := 7, provider := "openai", apiKey := "k9",
         isActive := true }] :=
  ⟨(c6_single_active_credential dbC6 (by decide) (by decide)).1 opsC6,
   (c6_single_active_credential dbC6 (by decide) (by decide)).2 7 "openai" "k9"⟩

/-- The store of C4's counterexample: a fresh conversation with the default
title and no messages. -/
def dbC4 : DB :=
  { conversations := [⟨0, 7, "New Conversation", none, none⟩],
    messages := [], branches := [], apiKeys := [], nextId := 1 }

/-- The store `dbC4` after appending an assistant-role message first. -/
def dbC4a : DB :=
  match addMessage dbC4 7 0 "ok" "assistant" none none with
  | .ok r => r.2
  | .error _ => dbC4

/-- The store `dbC4a` after then appending the user-role message `"hello"`. -/
def dbC4b : DB :=
  match addMessage dbC4a 7 0 "hello" "user" none none with
  | .ok r => r.2
  | .error _ => dbC4a

/-- Counterexample to C4 as stated: append an assistant message first (the
title stays `"New Conversation"`), then append the user message `"hello"`
(37 < 50 characters) — this is the first user-role message ever appended
while the title is still the default, so the claim requires the title to
become `"hello"`; but the code renames only when `messageIndex === 0`
(conversations.ts, line 111), so the title remains `"New Conversation"`. -/
theorem c4_counterexample :
    titleOf dbC4a 0 = some "New Conversation" ∧
    addMessage dbC4a 7 0 "hello" "user" none none = .ok (2, dbC4b) ∧
    "hello".length ≤ 50 ∧
    titleOf dbC4b 0 = some "New Conversation" ∧
    "New Conversation" ≠ "hello" := by
  refine ⟨rfl, rfl, by decide, rfl, by decide⟩

/-- C4 (amended): the title is auto-derived only when a user-role message
is appended as the very first message (the assigned `messageIndex` is 0) of
a conversation whose title is still `"New Conversation"`; then the title
becomes the content if its length is at most 50 characters and otherwise
its first 50 characters followed by `"..."` (`deriveTitle`).  Every other
append — in particular any append to a non-empty conversation, even a first
user-role message while the title is still the default — leaves every
conversation's title unchanged, so the rename can only ever happen once. -/
theorem c4_title_update_amended
    {db : DB} {u cid : Nat} {content role : String} {p m : Option String}
    {mid : Nat} {db' : DB}
    (hw : WF db)
    (h : addMessage db u cid content role p m = .ok (mid, db')) :
    ∀ c ∈ db.conversations,
      titleOf db' c.id = some (
        if c.id = cid ∧ (messagesOf db cid).length = 0 ∧ role = "user" ∧
            c.title = "New Conversation"
        then deriveTitle content else c.title) := by
  have hnc : (db.conversations.map (fun c => c.id)).Nodup := hw.2.2.2.2.2.1
  unfold addMessage at h
  cases hc0 : findConv db cid with
  | none => rw [hc0] at h; exact absurd h (by simp)
  | some conv0 =>
    rw [hc0] at h
    simp only [] at h
    by_cases hu : conv0.userId = u
    · rw [if_pos hu] at h
      intro c hcmem
      have hfind : findConv db c.id = some c := findConv_self hnc hcmem
      by_cases hcond : ((messagesOf db cid).length == 0 && role == "user" &&
          conv0.title == "New Conversation") = true
      · rw [if_pos hcond] at h
        simp only [Except.ok.injEq, insertMessage, Prod.mk.injEq] at h
        obtain ⟨-, hdb⟩ := h
        have hconv' : db'.conversations =
            (patchTitle db cid (deriveTitle content)).conversations := by
          rw [← hdb]
        have hfc : findConv db' c.id = some (if (c.id == cid) = true then
            { c with title := deriveTitle content } else c) := by
          unfold findConv
          rw [hconv']
          unfold patchTitle
          simp only []
          rw [find?_map_idPres _ (fun c2 => by split <;> rfl) db.conversations c.id]
          unfold findConv at hfind
          rw [hfind]
          rfl
        unfold titleOf
        rw [hfc]
        simp only [Bool.and_eq_true, beq_iff_eq] at hcond
        obtain ⟨⟨hlen, hrole⟩, htitle⟩ := hcond
        by_cases hcc : c.id = cid
        · have hceq : conv0 = c := by
            rw [← hcc] at hc0
            exact Option.some.inj (hc0.symm.trans hfind)
          rw [if_pos (by simpa using hcc)]
          simp only [Option.map_some']
          rw [if_pos ⟨hcc, hlen, hrole, by rw [← hceq]; exact htitle⟩]
        · rw [if_neg (by simpa using hcc)]
          simp only [Option.map_some']
          rw [if_neg (fun hcon => hcc hcon.1)]
      · rw [if_neg hcond] at h
        simp only [Except.ok.injEq, insertMessage, Prod.mk.injEq] at h
        obtain ⟨-, hdb⟩ := h
        have hconv' : db'.conversations = db.conversations := by rw [← hdb]
        unfold titleOf findConv
        rw [hconv']
        unfold findConv at hfind
        rw [hfind]
        simp only [Option.map_some']
        by_cases hcc : c.id = cid
        · have hceq : conv0 = c := by
            rw [← hcc] at hc0
            exact Option.some.inj (hc0.symm.trans hfind)
          rw [if_neg ?hneg]
          case hneg =>
            intro hcon
            apply hcond
            obtain ⟨-, h2, h3, h4⟩ := hcon
            have : conv0.title = "New Conversation" := by rw [hceq]; exact h4
            simp [h2, h3, this]
        · rw [if_neg (fun hcon => hcc hcon.1)]
    · rw [if_neg hu] at h
      exact absurd h (by simp)

/-- The store `dbC4` after appending the user message `"hello"` as its first
message. -/
def dbC4w : DB :=
  match addMessage dbC4 7 0 "hello" "user" none none with
  | .ok r => r.2
  | .error _ => dbC4

/-- Witness for the amended C4: appending `"hello"` as the first message of
the default-titled conversation renames it to `"hello"`. -/
theorem c4_witness :
    titleOf dbC4w 0 = some (
      if (0 : Nat) = 0 ∧ (messagesOf dbC4 0).length = 0 ∧ "user" = "user" ∧
          "New Conversation" = "New Conversation"
      then deriveTitle "hello" else "New Conversation") :=
  c4_title_update_amended (by decide)
    (show addMessage dbC4 7 0 "hello" "user" none none = .ok (1, dbC4w) from rfl)
    ⟨0, 7, "New Conversation", none, none⟩ (by decide)
